import Mathlib

/-!
Verification development for the lmarena_enhanced_proxy repository.

This file gives a shallow embedding, in Lean 4, of the parts of the
repository that the specification talks about:

* `session_manager.py` — the per-model session pool (`SessionManager`):
  sessions, per-model pools, the asyncio request queues used as waiter
  queues, and the operations `add_session`, `acquire_session`,
  `release_session`, `mark_unhealthy`.
* `proxy_server.py` — the request registry (`PersistentRequestManager`),
  the chat-completions HTTP handler, and the SSE `stream_generator`
  (chunk coalescing, error frames, `[DONE]` termination), as well as the
  code-block-safe data-URI extraction in `create_lmarena_request_body`.
* `LMArenaBridge-main/api_server.py` — the stream processor
  `_process_lmarena_stream` with its attachment-too-large detection, and
  the `stream_generator` / `non_stream_response` drivers.

Python strings are modelled as `List Char`; wall-clock times as natural
numbers of milliseconds; dictionaries as association lists in insertion
order; asyncio queues as a pair (number of queued items, number of
parked getters).  Machine-level concerns (sockets, JSON wire syntax) are
outside the embedding: events carried over a response channel are
modelled at the granularity the code itself dispatches on after JSON
decoding.
-/

set_option maxRecDepth 4000

namespace Proxy

/-- Strings of the Python source are modelled as lists of characters. -/
abbrev Chars := List Char

/-! ## Session manager (session_manager.py)

`SessionStatus`, `Session`, and `SessionManager` are embedded from
`src/lmarena_enhanced_proxy/session_manager.py`.  The manager state is
the dictionary `_session_pools` (an association list in insertion
order), together with one waiter queue per model (`_request_queues`).
An asyncio `Queue` is modelled by the number of items it currently
holds and the number of getters parked in `get()`; `put` hands the item
to a parked getter when one exists, otherwise enqueues it. -/

inductive SessionStatus where
  | available
  | in_use
  | unhealthy
deriving DecidableEq, Repr

structure Session where
  sessionId : String
  messageId : String
  modelName : String
  status : SessionStatus
  lastUsedTime : Nat
deriving DecidableEq, Repr

structure QueueState where
  items : Nat
  parked : Nat
deriving DecidableEq, Repr

/-- `asyncio.Queue.put` / `put_nowait`: when a getter is parked the item is
handed to it (completing that `get()`), otherwise the item is queued. -/
def queuePut (q : QueueState) : QueueState :=
  if 0 < q.parked then { items := q.items, parked := q.parked - 1 }
  else { items := q.items + 1, parked := q.parked }

/-- `asyncio.Queue.empty()`. -/
def queueEmpty (q : QueueState) : Bool :=
  q.items = 0

structure ModelPool where
  sessions : List Session
  queue : QueueState
deriving DecidableEq, Repr

/-- The manager state: `_session_pools` together with `_request_queues`,
keyed by model name in insertion order. -/
abbrev Pools := List (String × ModelPool)

/-- Inner loop of `release_session`: set the first session whose
`session_id` matches to AVAILABLE; `none` when no session matches. -/
def setFirstAvailable : List Session → String → Option (List Session)
  | [], _ => none
  | s :: rest, sid =>
      if s.sessionId = sid then some ({ s with status := SessionStatus.available } :: rest)
      else (setFirstAvailable rest sid).map (fun l => s :: l)

/-- Inner loop of `mark_unhealthy`: set the first matching session to
UNHEALTHY. -/
def setFirstUnhealthy : List Session → String → Option (List Session)
  | [], _ => none
  | s :: rest, sid =>
      if s.sessionId = sid then some ({ s with status := SessionStatus.unhealthy } :: rest)
      else (setFirstUnhealthy rest sid).map (fun l => s :: l)

/-- `SessionManager.release_session` (session_manager.py lines 88-100):
scan the pools in order; on the first session whose id matches, set its
status to AVAILABLE and, **only if the request queue is non-empty**, put
a wake-up sentinel; then return.  When no session matches, only a
warning is logged and nothing changes. -/
def releaseSession : Pools → String → Pools
  | [], _ => []
  | (m, pool) :: rest, sid =>
      match setFirstAvailable pool.sessions sid with
      | some ss =>
          (m, { sessions := ss,
                queue := if queueEmpty pool.queue then pool.queue else queuePut pool.queue }) :: rest
      | none => (m, pool) :: releaseSession rest sid

/-- `SessionManager.mark_unhealthy` (session_manager.py lines 102-111):
scan the pools in order; set the first matching session to UNHEALTHY and
return; waiters are not signalled.  When no session matches, only a
warning is logged. -/
def markUnhealthy : Pools → String → Pools
  | [], _ => []
  | (m, pool) :: rest, sid =>
      match setFirstUnhealthy pool.sessions sid with
      | some ss => (m, { sessions := ss, queue := pool.queue }) :: rest
      | none => (m, pool) :: markUnhealthy rest sid

/-- `SessionManager.add_session` (session_manager.py lines 37-48):
register the model when absent, append the session to its pool, and,
**only if the request queue is non-empty**, put a wake-up sentinel. -/
def addSession (pools : Pools) (s : Session) : Pools :=
  if pools.any (fun mp => mp.1 = s.modelName) then
    pools.map (fun mp =>
      if mp.1 = s.modelName then
        (mp.1, { sessions := mp.2.sessions ++ [s],
                 queue := if queueEmpty mp.2.queue then mp.2.queue else queuePut mp.2.queue })
      else mp)
  else pools ++ [(s.modelName, { sessions := [s], queue := { items := 0, parked := 0 } })]

/-- First pass of `acquire_session` (session_manager.py lines 57-63):
under the model lock, return the first AVAILABLE session of the pool,
transitioned to IN_USE with `last_used_time` updated to `now`. -/
def acquireFirstAvailable (now : Nat) : List Session → Option (Session × List Session)
  | [] => none
  | s :: rest =>
      if s.status = SessionStatus.available then
        let s2 := { s with status := SessionStatus.in_use, lastUsedTime := now }
        some (s2, s2 :: rest)
      else (acquireFirstAvailable now rest).map (fun p => (p.1, s :: p.2))

/-- Outcome of the parked wait `asyncio.wait_for(queue.get(), timeout)`
inside `acquire_session`: either a sentinel arrives before the deadline
(and the pool is re-scanned in the state it has at that moment), or the
deadline elapses and `asyncio.TimeoutError` is raised. -/
inductive WaitOutcome where
  | signalled (poolAtWake : List Session)
  | deadline
deriving Repr

/-- Lookup of a model pool. -/
def findPool (pools : Pools) (model : String) : Option ModelPool :=
  (pools.find? (fun mp => mp.1 = model)).map (fun mp => mp.2)

/-- `SessionManager.acquire_session` (session_manager.py lines 50-86).
Unregistered model: `None`.  Otherwise, the immediate scan; when no
session is AVAILABLE the caller parks on the request queue: on a
sentinel before the deadline it re-scans (the pool possibly changed in
the meantime, abstracted by `WaitOutcome.signalled`), and on deadline
the `asyncio.TimeoutError` is **caught inside the function** (lines
84-86) and `None` is returned — the timeout is never re-raised to the
caller. -/
def acquireSession (now : Nat) (pools : Pools) (model : String) (wait : WaitOutcome) :
    Option Session × Pools :=
  match findPool pools model with
  | none => (none, pools)
  | some pool =>
      match acquireFirstAvailable now pool.sessions with
      | some (s, ss) =>
          (some s, pools.map (fun mp => if mp.1 = model then (mp.1, { mp.2 with sessions := ss }) else mp))
      | none =>
          match wait with
          | WaitOutcome.deadline => (none, pools)
          | WaitOutcome.signalled poolAtWake =>
              match acquireFirstAvailable now poolAtWake with
              | some (s, ss) =>
                  (some s, pools.map (fun mp => if mp.1 = model then (mp.1, { mp.2 with sessions := ss }) else mp))
              | none => (none, pools)

/-- All session ids stored anywhere in the pools. -/
def allSessionIds (pools : Pools) : List String :=
  pools.flatMap (fun mp => mp.2.sessions.map (fun s => s.sessionId))

/-- Status of the first session carrying the given id, scanning pools in
order — the view `release_session` / `mark_unhealthy` act on. -/
def statusOfSid (pools : Pools) (sid : String) : Option SessionStatus :=
  ((pools.flatMap (fun mp => mp.2.sessions)).find? (fun s => s.sessionId = sid)).map
    (fun s => s.status)

/-- The waiter queue of a model. -/
def queueOf (pools : Pools) (model : String) : Option QueueState :=
  (findPool pools model).map (fun p => p.queue)

/-! ## Request registry (`PersistentRequestManager`, proxy_server.py)

Embedded from `src/lmarena_enhanced_proxy/proxy_server.py` lines
747-889.  `active_requests` is a dictionary in insertion order; the
response channels themselves are owned by the HTTP side, so pushes onto
a channel are recorded as an output list of pairs
(request id, pushed error message). -/

inductive PStatus where
  | pending
  | sentToBrowser
  | processing
  | completed
  | timedOut
  | errored
deriving DecidableEq, Repr

/-- Membership test `status in [RequestStatus.SENT_TO_BROWSER, RequestStatus.PROCESSING]`. -/
def isPendingStatus : PStatus → Bool
  | PStatus.sentToBrowser => true
  | PStatus.processing => true
  | _ => false

structure PReqM where
  rid : String
  status : PStatus
deriving DecidableEq, Repr

structure ReqMgr where
  active : List PReqM
deriving DecidableEq, Repr

/-- `PersistentRequestManager.get_request`. -/
def lookupReq (m : ReqMgr) (rid : String) : Option PReqM :=
  m.active.find? (fun r => r.rid = rid)

/-- `PersistentRequestManager.get_pending_requests` (lines 844-849):
requests whose status is SENT_TO_BROWSER or PROCESSING. -/
def getPendingIds (m : ReqMgr) : List String :=
  (m.active.filter (fun r => isPendingStatus r.status)).map (fun r => r.rid)

/-- The timeout error message pushed by `timeout_request` (Config.REQUEST_TIMEOUT_SECONDS = 180). -/
def timeoutMsg : String :=
  "Request timed out after 180 seconds. Browser may have disconnected during Cloudflare challenge."

/-- `PersistentRequestManager.timeout_request` (lines 815-834): when the
request is active, push a timeout error onto its response channel and
remove it from `active_requests`; otherwise do nothing. -/
def timeoutRequest (m : ReqMgr) (rid : String) : ReqMgr × List (String × String) :=
  if (lookupReq m rid).isSome then
    ({ active := m.active.eraseP (fun r => r.rid = rid) }, [(rid, timeoutMsg)])
  else (m, [])

/-- `PersistentRequestManager.add_request` (lines 775-796): reject with
`HTTPException(503)` when `len(active_requests) >= Config.MAX_CONCURRENT_REQUESTS`,
otherwise insert the new request with status PENDING.  The `Except`
error value is the HTTP status carried by the raised exception. -/
def addRequest (m : ReqMgr) (maxConcurrent : Nat) (rid : String) : Except Nat ReqMgr :=
  if maxConcurrent ≤ m.active.length then Except.error 503
  else Except.ok { active := m.active ++ [{ rid := rid, status := PStatus.pending }] }

/-- Body of `request_timeout_watcher` after its sleep (lines 856-862):
for each watched request id, when the request is still active **and**
its (live) status is still SENT_TO_BROWSER or PROCESSING, time it out. -/
def watcherFire : List String → ReqMgr → ReqMgr × List (String × String)
  | [], m => (m, [])
  | rid :: rest, m =>
      match lookupReq m rid with
      | some req =>
          if isPendingStatus req.status then
            let p1 := timeoutRequest m rid
            let p2 := watcherFire rest p1.1
            (p2.1, p1.2 ++ p2.2)
          else watcherFire rest m
      | none => watcherFire rest m

/-- Result of `handle_browser_disconnect`: possibly-updated registry,
pushes onto response channels, and the watched id set when a watchdog
task was spawned. -/
structure DisconnectResult where
  mgr : ReqMgr
  pushes : List (String × String)
  watched : Option (List String)
deriving Repr

/-- Immediate-timeout loop of the shutdown branch of
`handle_browser_disconnect` (lines 881-883). -/
def timeoutAll : List String → ReqMgr → ReqMgr × List (String × String)
  | [], m => (m, [])
  | rid :: rest, m =>
      let p1 := timeoutRequest m rid
      let p2 := timeoutAll rest p1.1
      (p2.1, p1.2 ++ p2.2)

/-- `PersistentRequestManager.handle_browser_disconnect` (lines 868-889):
nothing to do when no request is in SENT_TO_BROWSER or PROCESSING;
during shutdown every pending request is timed out immediately;
otherwise the registry is left untouched and a watchdog task is spawned
over a copy of the pending set. -/
def handleBrowserDisconnect (m : ReqMgr) (shuttingDown : Bool) : DisconnectResult :=
  let pending := getPendingIds m
  if pending.isEmpty then { mgr := m, pushes := [], watched := none }
  else if shuttingDown then
    let p := timeoutAll pending m
    { mgr := p.1, pushes := p.2, watched := none }
  else { mgr := m, pushes := [], watched := some pending }

/-- The cleanup loop at the end of `websocket_endpoint` (lines 1937-1946):
a "Browser disconnected" error is pushed only onto the channels of
request ids that have **no** entry in the persistent manager. -/
def wsDisconnectErrorTargets (channelIds : List String) (m : ReqMgr) : List String :=
  channelIds.filter (fun rid => (lookupReq m rid).isNone)

/-- Boolean membership in a list of request ids. -/
def memStr (x : String) (l : List String) : Bool :=
  l.any (fun y => y = x)

/-- A request the watchdog kills: watched and still in SENT_TO_BROWSER
or PROCESSING status. -/
def killedBy (watched : List String) (r : PReqM) : Bool :=
  memStr r.rid watched && isPendingStatus r.status

/-- Is the given id active with SENT_TO_BROWSER or PROCESSING status? -/
def stillPending (m : ReqMgr) (rid : String) : Bool :=
  match lookupReq m rid with
  | some r => isPendingStatus r.status
  | none => false

/-! ## The chat-completions HTTP handler (proxy_server.py lines 1976-2056)

The handler is embedded as a function of the pre-check state, of the
outcome of the session acquisition, and of the registry.  Modelled from
the spec: the call `session_manager.get_session(model_name)` at line
2014 resolves to the sibling session-manager file that is not under
`src/` (the spec's design notes record two near-duplicate session
managers in the repository); per spec §4.C it is the pool acquire,
whose outcome is the parameter `acq` below — `some s` when a session
was obtained, `none` when not (src's `acquire_session` returns `None`
both on deadline and on an empty re-scan, because it catches
`asyncio.TimeoutError` internally).

Control flow of the source:
* no browser peer → `HTTPException(503)` raised before the `try`;
* unknown model → `HTTPException(404)` raised before the `try`;
* inside the `try`, an acquisition that yields no session makes
  `session.session_id` (line 2015) raise `AttributeError`, which the
  generic `except Exception` arm (lines 2048-2051) re-raises as
  `HTTPException(500)`;
* `add_request`'s `HTTPException(503)` is likewise caught by the
  generic `except Exception` arm and re-raised as `HTTPException(500)`;
* on success the `ImmediateStreamingResponse` is returned; the
  `finally` arm (lines 2052-2056) releases the session — if one was
  acquired — when the handler coroutine returns, which is **before**
  the ASGI server first iterates the response generator.
No statement inside the `try` raises `asyncio.TimeoutError`, so the
`except asyncio.TimeoutError` arm (lines 2045-2047, HTTP 504) is
unreachable. -/

structure ChatResult where
  status : Nat
  releasedSids : List String
  registryAfter : ReqMgr
  streamingAccepted : Bool
deriving DecidableEq, Repr

/-- The `chat_completions` handler.  `acq` is the outcome of the session
acquisition (see the section comment); `maxConcurrent` is
`Config.MAX_CONCURRENT_REQUESTS` (= 20 in the source). -/
def chatCompletions (browserConnected modelFound : Bool) (acq : Option Session)
    (mgr : ReqMgr) (maxConcurrent : Nat) (rid : String) : ChatResult :=
  if ¬browserConnected then
    { status := 503, releasedSids := [], registryAfter := mgr, streamingAccepted := false }
  else if ¬modelFound then
    { status := 404, releasedSids := [], registryAfter := mgr, streamingAccepted := false }
  else
    match acq with
    | none =>
        { status := 500, releasedSids := [], registryAfter := mgr, streamingAccepted := false }
    | some s =>
        match addRequest mgr maxConcurrent rid with
        | Except.error _ =>
            { status := 500, releasedSids := [s.sessionId], registryAfter := mgr,
              streamingAccepted := false }
        | Except.ok mgr2 =>
            { status := 200, releasedSids := [s.sessionId], registryAfter := mgr2,
              streamingAccepted := true }

/-- Pool state at the moment the handler hands the streaming response to
the ASGI server: the `finally` arm has already run, so every session id
in `releasedSids` has been released. -/
def applyReleases (pools : Pools) (sids : List String) : Pools :=
  sids.foldl releaseSession pools

/-! ## The SSE stream generator (proxy_server.py lines 2105-2357)

Embedding of `stream_generator` for a streaming chat request
(`is_streaming = True`, `model_type = "chat"`).  Each iteration of the
`while True` loop performs one read of the response queue:

* `QRead.tick now` — `asyncio.wait_for(queue.get(), timeout=0.1)` raised
  `asyncio.TimeoutError` (queue empty for 0.1 s); the buffer is flushed
  when it is non-empty and at least 500 ms have passed since the last
  flush (lines 2142-2166);
* `QRead.item d now` — a datum was obtained; `now` is the value
  `time.time()` reads during its processing.

Data on the channel are modelled after JSON decoding, at the
granularity the loop dispatches on:

* `PDatum.doneMark` — the `"[DONE]"` sentinel (line 2168, `break`);
* `PDatum.errDict msg` — a dict carrying `"error"`, or a JSON string
  carrying `"error"` (lines 2172-2188 and 2191-2217 both yield one
  error frame plus `data: [DONE]` and return);
* `PDatum.a0 delta` — a text delta `a0:<json string>` whose decoded text
  is `delta` (lines 2237-2272): appended to the buffer, which is then
  flushed as one frame when it has ≥ 40 characters or when it is
  non-empty and ≥ 500 ms passed since the last flush;
* `PDatum.ad reason` — an `ad:` end-of-turn marker whose decoded
  `finishReason` (with the source's `.get` default `"stop"`) is
  `reason` (lines 2276-2278);
* `PDatum.garbled` — any other or unparseable datum (warning + continue;
  also `a2:` media lines, ignored for chat models).

Times are naturals in milliseconds, so `MIN_CHUNK_SIZE = 40` and
`MAX_BUFFER_TIME = 0.5 s = 500 ms`.  On `break` the epilogue (lines
2292-2357) flushes a non-empty buffer, emits the final chunk whose
`finish_reason` is `finish_reason or "stop"`, and emits `data: [DONE]`. -/

inductive PDatum where
  | doneMark
  | errDict (msg : Chars)
  | a0 (delta : Chars)
  | ad (reason : Chars)
  | garbled
deriving DecidableEq, Repr

inductive QRead where
  | tick (now : Nat)
  | item (d : PDatum) (now : Nat)
deriving DecidableEq, Repr

/-- One SSE frame of the proxy's chat stream.  `contentFrame` is a
`chat.completion.chunk` whose `choices[0].finish_reason` is null;
`finishFrame r` is a chunk with empty delta and `finish_reason = r`;
`errorFrame` is an `{"error": ...}` envelope (no `choices` at all);
`doneFrame` is the literal `data: [DONE]`. -/
inductive SseFrame where
  | contentFrame (text : Chars)
  | finishFrame (reason : Chars)
  | errorFrame (msg : Chars)
  | doneFrame
deriving DecidableEq, Repr

/-- The JSON value of `choices[0].finish_reason` carried by a frame:
`none` meaning null or absent (the `errorFrame` envelope has no
`choices`, the `doneFrame` sentinel is not JSON). -/
def finishReasonField : SseFrame → Option Chars
  | SseFrame.finishFrame r => some r
  | _ => none

/-- Python `finish_reason or "stop"` (line 2350): `None` and the empty
string are both falsy. -/
def orStop : Option Chars → Chars
  | none => "stop".toList
  | some r => if r = [] then "stop".toList else r

/-- Loop state: the coalescing buffer, the recorded finish reason, and
`last_chunk_time` in milliseconds. -/
structure GenState where
  buffer : Chars
  finishReason : Option Chars
  lastFlush : Nat
deriving DecidableEq, Repr

/-- Epilogue after `break` (lines 2292-2311 and 2340-2357): flush any
remaining buffer, then the final chunk with a non-null finish reason,
then `data: [DONE]`. -/
def genEpilogue (st : GenState) : List SseFrame :=
  (if st.buffer = [] then [] else [SseFrame.contentFrame st.buffer]) ++
    [SseFrame.finishFrame (orStop st.finishReason), SseFrame.doneFrame]

/-- The `while True` loop of `stream_generator` over a finite list of
queue reads.  An exhausted read list means the generator is still
parked on `queue.get()` — no further frames yet. -/
def runLoop (st : GenState) : List QRead → List SseFrame
  | [] => []
  | QRead.tick now :: rest =>
      if st.buffer ≠ [] ∧ 500 ≤ now - st.lastFlush then
        SseFrame.contentFrame st.buffer ::
          runLoop { buffer := [], finishReason := st.finishReason, lastFlush := now } rest
      else runLoop st rest
  | QRead.item PDatum.doneMark _ :: _ => genEpilogue st
  | QRead.item (PDatum.errDict msg) _ :: _ => [SseFrame.errorFrame msg, SseFrame.doneFrame]
  | QRead.item (PDatum.a0 delta) now :: rest =>
      let buf := st.buffer ++ delta
      if 40 ≤ buf.length ∨ (buf ≠ [] ∧ 500 ≤ now - st.lastFlush) then
        SseFrame.contentFrame buf ::
          runLoop { buffer := [], finishReason := st.finishReason, lastFlush := now } rest
      else runLoop { st with buffer := buf } rest
  | QRead.item (PDatum.ad reason) _ :: rest =>
      runLoop { st with finishReason := some reason } rest
  | QRead.item PDatum.garbled _ :: rest => runLoop st rest

/-- `stream_generator` for a streaming chat request, started at time
`t0` (`last_chunk_time = time.time()`, line 2135). -/
def runGenerator (t0 : Nat) (reads : List QRead) : List SseFrame :=
  runLoop { buffer := [], finishReason := none, lastFlush := t0 } reads

/-- A queue read that terminates the loop: the `"[DONE]"` sentinel or an
error datum. -/
def isTerminator : QRead → Bool
  | QRead.item PDatum.doneMark _ => true
  | QRead.item (PDatum.errDict _) _ => true
  | _ => false

/-- The text delivered by a queue read (the decoded `a0` delta). -/
def deltaText : QRead → Chars
  | QRead.item (PDatum.a0 d) _ => d
  | _ => []

/-- The text flushed by a frame (the content of a coalesced chunk). -/
def flushedText : SseFrame → Chars
  | SseFrame.contentFrame s => s
  | _ => []

/-- The frame immediately before the last one. -/
def secondLastFrame (l : List SseFrame) : Option SseFrame :=
  l.reverse.get? 1

/-- Is the first loop-terminating read of the list the `"[DONE]"`
sentinel (as opposed to an error datum)? -/
def firstTerminatorIsDone : List QRead → Bool
  | [] => false
  | QRead.item PDatum.doneMark _ :: _ => true
  | QRead.item (PDatum.errDict _) _ :: _ => false
  | _ :: rest => firstTerminatorIsDone rest

/-- Concatenation of the text flushed by a frame sequence. -/
def framesText (fs : List SseFrame) : Chars :=
  (fs.map flushedText).flatten

/-- Concatenation of the deltas delivered by a read sequence. -/
def readsText (rs : List QRead) : Chars :=
  (rs.map deltaText).flatten

/-! ## Code-block-safe data-URI extraction (proxy_server.py lines 2478-2525, 2578-2586)

String-typed message content is scanned with two regular expressions:

* code spans — three backticks, a lazy body, three backticks; or a
  single backtick, one or more characters that are neither backtick nor
  newline, and a closing backtick (the pattern at line 2484); the span
  extents (start, end) are collected by `re.finditer` semantics:
  left-to-right, non-overlapping, first alternative preferred, scanning
  resumes after each match;
* data URIs — the literal `data:image/`, one or more word characters,
  the literal `;base64,` and one or more base64 characters (line 2493).

A data URI is extracted as an attachment exactly when its start
position lies inside no code-span extent (`start <= match.start() < end`,
lines 2495-2503); `re.sub` with the same URI pattern removes exactly
those occurrences, keeping the ones that start inside a span (lines
2513-2521), and the result is stripped of leading and trailing
whitespace.  Finally, when more than 10 attachments were collected and
more than 5 of them have base64 bodies shorter than 5000 characters,
the whole attachment list is cleared (lines 2579-2585). -/

/-- The backtick character. -/
def btk : Char := Char.ofNat 96

/-- `\w` of the source pattern, on the ASCII range the inputs use. -/
def isWordChar (c : Char) : Bool :=
  (decide (Char.ofNat 97 ≤ c) && decide (c ≤ Char.ofNat 122)) ||
  (decide (Char.ofNat 65 ≤ c) && decide (c ≤ Char.ofNat 90)) ||
  (decide (Char.ofNat 48 ≤ c) && decide (c ≤ Char.ofNat 57)) ||
  decide (c = Char.ofNat 95)

/-- The character class `[a-zA-Z0-9+/=]` of the source pattern. -/
def isB64Char (c : Char) : Bool :=
  (decide (Char.ofNat 97 ≤ c) && decide (c ≤ Char.ofNat 122)) ||
  (decide (Char.ofNat 65 ≤ c) && decide (c ≤ Char.ofNat 90)) ||
  (decide (Char.ofNat 48 ≤ c) && decide (c ≤ Char.ofNat 57)) ||
  decide (c = Char.ofNat 43) || decide (c = Char.ofNat 47) || decide (c = Char.ofNat 61)

/-- Does the list start with three backticks? -/
def startsWithTriple (t : Chars) : Bool :=
  match t with
  | a :: b :: c :: _ => decide (a = btk) && decide (b = btk) && decide (c = btk)
  | _ => false

/-- Index of the first occurrence of three consecutive backticks. -/
def findTripleFrom : Chars → Option Nat
  | [] => none
  | t@(_ :: rest) =>
      if startsWithTriple t then some 0 else (findTripleFrom rest).map (fun j => j + 1)

/-- Length of a fenced-code match (first alternative of the span
pattern) at the head of `t`: three backticks, the shortest body, three
backticks. -/
def matchFence (t : Chars) : Option Nat :=
  if startsWithTriple t then
    match findTripleFrom (t.drop 3) with
    | some j => some (3 + j + 3)
    | none => none
  else none

/-- The inline-run character class `[^\x60\n]` of the span pattern:
neither backtick nor newline. -/
def notBtkNl (d : Char) : Bool :=
  decide (¬d = btk) && decide (¬d = Char.ofNat 10)

/-- Length of an inline-code match (second alternative) at the head of
`t`: a backtick, one or more characters that are neither backtick nor
newline, a backtick. -/
def matchInline (t : Chars) : Option Nat :=
  match t with
  | c :: rest =>
      if c = btk then
        if 0 < (rest.takeWhile notBtkNl).length then
          match (rest.drop (rest.takeWhile notBtkNl).length).head? with
          | some d => if d = btk then some ((rest.takeWhile notBtkNl).length + 2) else none
          | none => none
        else none
      else none
  | [] => none

/-- Length of a code-span match at the head of `t` (alternation,
fenced alternative first). -/
def matchCodeSpan (t : Chars) : Option Nat :=
  match matchFence t with
  | some n => some n
  | none => matchInline t

/-- `re.finditer` scan for code spans: at each position try the pattern;
on a match record the extent and resume after it, otherwise advance one
character. -/
def scanSpansAux (fuel : Nat) (t : Chars) (i : Nat) : List (Nat × Nat) :=
  match fuel with
  | 0 => []
  | fuel + 1 =>
      match t with
      | [] => []
      | _ :: rest =>
          match matchCodeSpan t with
          | some n => (i, i + n) :: scanSpansAux fuel (t.drop n) (i + n)
          | none => scanSpansAux fuel rest (i + 1)

/-- The code-span extents of a content string (line 2488). -/
def codeSpans (cs : Chars) : List (Nat × Nat) :=
  scanSpansAux cs.length cs 0

/-- A data-URI match at the head of `t`: returns
(match length, extension run, base64 run). -/
def matchDataUri (t : Chars) : Option (Nat × Chars × Chars) :=
  if t.take 11 = "data:image/".toList then
    let r1 := t.drop 11
    let w := r1.takeWhile isWordChar
    if 0 < w.length then
      let r2 := r1.drop w.length
      if r2.take 8 = ";base64,".toList then
        let b := (r2.drop 8).takeWhile isB64Char
        if 0 < b.length then some (11 + w.length + 8 + b.length, w, b) else none
      else none
    else none
  else none

/-- One extracted data-URI occurrence: start position, end position,
extension, base64 body. -/
structure UriMatch where
  start : Nat
  stop : Nat
  ext : Chars
  data : Chars
deriving DecidableEq, Repr

/-- `re.finditer` scan for data URIs. -/
def scanUrisAux (fuel : Nat) (t : Chars) (i : Nat) : List UriMatch :=
  match fuel with
  | 0 => []
  | fuel + 1 =>
      match t with
      | [] => []
      | _ :: rest =>
          match matchDataUri t with
          | some (n, w, b) =>
              { start := i, stop := i + n, ext := w, data := b } ::
                scanUrisAux fuel (t.drop n) (i + n)
          | none => scanUrisAux fuel rest (i + 1)

/-- All data-URI occurrences of a content string (line 2493). -/
def uriMatches (cs : Chars) : List UriMatch :=
  scanUrisAux cs.length cs 0

/-- `start <= match.start() < end` over the span index (lines 2496-2499). -/
def insideAnySpan (spans : List (Nat × Nat)) (p : Nat) : Bool :=
  spans.any (fun se => decide (se.1 ≤ p) && decide (p < se.2))

/-- The URI occurrences counted as files: those starting outside every
code span (lines 2500-2503). -/
def extractedUris (cs : Chars) : List UriMatch :=
  (uriMatches cs).filter (fun m => ¬insideAnySpan (codeSpans cs) m.start)

/-- `re.sub` with `replace_outside_code_blocks` (lines 2513-2521): scan
left to right; a URI match starting inside a span is kept verbatim, one
starting outside is replaced by the empty string; scanning resumes
after each match. -/
def redactAux (spans : List (Nat × Nat)) (fuel : Nat) (t : Chars) (i : Nat) : Chars :=
  match fuel with
  | 0 => t
  | fuel + 1 =>
      match t with
      | [] => []
      | c :: rest =>
          match matchDataUri t with
          | some (n, _, _) =>
              if insideAnySpan spans i then
                t.take n ++ redactAux spans fuel (t.drop n) (i + n)
              else redactAux spans fuel (t.drop n) (i + n)
          | none => c :: redactAux spans fuel rest (i + 1)

/-- Python whitespace stripped by `str.strip()` (ASCII range). -/
def isPySpace (c : Char) : Bool :=
  decide (c = Char.ofNat 32) || decide (c = Char.ofNat 9) || decide (c = Char.ofNat 10) ||
  decide (c = Char.ofNat 13) || decide (c = Char.ofNat 11) || decide (c = Char.ofNat 12)

/-- `str.strip()`. -/
def pyStrip (cs : Chars) : Chars :=
  ((cs.dropWhile isPySpace).reverse.dropWhile isPySpace).reverse

/-- An attachment as appended to `files_to_upload` (lines 2507-2510):
file extension and base64 body (the generated uuid filename is not
modelled). -/
structure Attachment where
  ext : Chars
  data : Chars
deriving DecidableEq, Repr

/-- The string-content branch of the message loop of
`create_lmarena_request_body` (lines 2478-2525): the cleaned text and
the attachments extracted from it.  When no URI lies outside the spans,
the text is returned unchanged (no strip). -/
def processStringContent (cs : Chars) : Chars × List Attachment :=
  let ms := extractedUris cs
  if ms.isEmpty then (cs, [])
  else
    (pyStrip (redactAux (codeSpans cs) cs.length cs 0),
     ms.map (fun m => { ext := m.ext, data := m.data }))

/-- The file-count guard (lines 2579-2585): when more than 10
attachments were collected and more than 5 of them have base64 bodies
shorter than 5000 characters, the list is cleared. -/
def capAttachments (fs : List Attachment) : List Attachment :=
  if 10 < fs.length then
    if 5 < (fs.filter (fun f => f.data.length < 5000)).length then [] else fs
  else fs

/-! ## The LMArenaBridge stream processor (api_server.py lines 603-780)

Embedding of `_process_lmarena_stream`, `stream_generator` and
`non_stream_response` of `src/LMArenaBridge-main/api_server.py`.

Queue data are modelled at the granularity the processor dispatches on:
a dict carrying a string under `"error"` (`ARaw.errDictA`), the
`"[DONE]"` sentinel (`ARaw.doneA`), or a raw chunk appended to the
buffer (`ARaw.chunkA`).  The per-chunk scanning of the buffer for
`a0:`/`a2:`/`ad:`/embedded-error records (lines 676-710) involves JSON
decoding and is abstracted by the function parameter `scan`, returning
the events it emits, the remaining buffer, and whether the processor
returned (an embedded error record); the theorems below quantify over
every such `scan`.  The Cloudflare check on the accumulated buffer
(line 665) and the whole error-dict branch (lines 633-659) are embedded
directly. -/

/-- An event emitted by `_process_lmarena_stream`. -/
inductive AEvent where
  | contentEv (s : Chars)
  | finishEv (r : Chars)
  | errorEv (m : Chars)
deriving DecidableEq, Repr

/-- A datum read from the response channel of one request. -/
inductive ARaw where
  | errDictA (msg : Chars)
  | doneA
  | chunkA (s : Chars)
deriving DecidableEq, Repr

/-- Does `hay` start with `needle`? -/
def startsWithL : Chars → Chars → Bool
  | _, [] => true
  | [], _ :: _ => false
  | h :: hs, n :: ns => decide (h = n) && startsWithL hs ns

/-- Python substring membership `needle in hay`. -/
def containsSub (hay needle : Chars) : Bool :=
  match hay with
  | [] => startsWithL [] needle
  | _ :: t => startsWithL hay needle || containsSub t needle

/-- Python `str.lower()` on the ASCII range. -/
def pyLower (cs : Chars) : Chars :=
  cs.map Char.toLower

/-- The attachment-too-large test of line 639:
`'413' in error_msg or 'too large' in error_msg.lower()`. -/
def contains413orTooLarge (msg : Chars) : Bool :=
  containsSub msg ("413".toList) || containsSub (pyLower msg) ("too large".toList)

/-- A compiled pattern character: `none` is the `.` wildcard. -/
def patOfString (s : String) : List (Option Char) :=
  s.toList.map (fun c => if c = Char.ofNat 46 then none else some c)

/-- Match a wildcard pattern at the head of `t`, case-insensitively
(`re.IGNORECASE`). -/
def patMatchesAt : List (Option Char) → Chars → Bool
  | [], _ => true
  | _ :: _, [] => false
  | none :: ps, _ :: ts => patMatchesAt ps ts
  | some c :: ps, d :: ts => decide (c.toLower = d.toLower) && patMatchesAt ps ts

/-- `re.search` of a wildcard pattern. -/
def patSearch (pat : List (Option Char)) : Chars → Bool
  | [] => patMatchesAt pat []
  | t@(_ :: rest) => patMatchesAt pat t || patSearch pat rest

/-- The two Cloudflare patterns of line 621 (dots are regex wildcards). -/
def cfPatterns : List (List (Option Char)) :=
  [patOfString "<title>Just a moment...</title>",
   patOfString "Enable JavaScript and cookies to continue"]

/-- `any(re.search(p, s, re.IGNORECASE) for p in cloudflare_patterns)`. -/
def cfSearch (s : Chars) : Bool :=
  cfPatterns.any (fun p => patSearch p s)

/-- The friendly attachment-too-large message of line 640. -/
def friendly413 : Chars :=
  "上传失败：附件大小超过了 LMArena 服务器的限制 (通常是 5MB左右)。请尝试压缩文件或上传更小的文件。".toList

/-- The friendly Cloudflare message of lines 647 and 666. -/
def cfFriendlyMsg : Chars :=
  "检测到 Cloudflare 人机验证页面。请在浏览器中刷新 LMArena 页面并手动完成验证，然后重试请求。".toList

/-- The read-timeout message of line 629 with the default
`stream_response_timeout_seconds` of 360. -/
def aTimeoutMsg : Chars :=
  "Response timed out after 360 seconds.".toList

/-- The error-dict branch of `_process_lmarena_stream` (lines 633-659):
attachment-too-large first, then Cloudflare, then the raw message. -/
def classifyErrDict (msg : Chars) : AEvent :=
  if contains413orTooLarge msg then AEvent.errorEv friendly413
  else if cfSearch msg then AEvent.errorEv cfFriendlyMsg
  else AEvent.errorEv msg

/-- Result of the abstracted buffer scan (lines 676-710): events
emitted, remaining buffer, and whether the processor returned because
an embedded error record was decoded. -/
structure ScanOut where
  events : List AEvent
  buffer : Chars
  stop : Bool

/-- The read loop of `_process_lmarena_stream`.  An exhausted datum
list models `asyncio.wait_for` expiring: one timeout error event.  An
error dict is classified and ends the stream; `"[DONE]"` breaks out of
the loop (the generator then simply ends); a chunk is appended to the
buffer, checked against the Cloudflare patterns, then handed to the
buffer scan. -/
def processLoop (scan : Chars → ScanOut) (buffer : Chars) : List ARaw → List AEvent
  | [] => [AEvent.errorEv aTimeoutMsg]
  | ARaw.errDictA msg :: _ => [classifyErrDict msg]
  | ARaw.doneA :: _ => []
  | ARaw.chunkA s :: rest =>
      let b := buffer ++ s
      if cfSearch b then [AEvent.errorEv cfFriendlyMsg]
      else
        let o := scan b
        o.events ++ (if o.stop then [] else processLoop scan o.buffer rest)

/-- `_process_lmarena_stream` started with an empty buffer. -/
def processStream (scan : Chars → ScanOut) (data : List ARaw) : List AEvent :=
  processLoop scan [] data

/-- An SSE frame of the LMArenaBridge stream: a content chunk (its
`choices[0].finish_reason` is null), a finish chunk
(`finish_reason = reason`), or the `data: [DONE]` line
(`format_openai_finish_chunk` emits a finish chunk immediately followed
by `[DONE]`). -/
inductive AFrame where
  | contentC (s : Chars)
  | finishC (r : Chars)
  | doneF
deriving DecidableEq, Repr

/-- The text prepended by `format_openai_error_chunk` (line 581). -/
def bridgeErrHeader : Chars :=
  "\n\n[LMArena Bridge Error]: ".toList

/-- The content-filter warning of lines 733 and 759. -/
def cfilterWarn : Chars :=
  "\n\n响应被终止，可能是上下文超限或者模型内部审查（大概率）的原因".toList

/-- The event loop of `stream_generator` (api_server.py lines 719-743),
carrying `finish_reason_to_send` (initially `"stop"`). -/
def streamGenAGo (fr : Chars) : List AEvent → List AFrame
  | [] => [AFrame.finishC fr, AFrame.doneF]
  | AEvent.contentEv s :: rest => AFrame.contentC s :: streamGenAGo fr rest
  | AEvent.finishEv r :: rest =>
      (if r = "content-filter".toList then [AFrame.contentC cfilterWarn] else []) ++
        streamGenAGo r rest
  | AEvent.errorEv m :: _ =>
      [AFrame.contentC (bridgeErrHeader ++ m), AFrame.finishC ("stop".toList), AFrame.doneF]

/-- `stream_generator` of api_server.py. -/
def streamGenA (evs : List AEvent) : List AFrame :=
  streamGenAGo ("stop".toList) evs

/-- The HTTP response assembled by `non_stream_response`: status code,
the error code of the OpenAI envelope when the body is an error, the
aggregated content and the finish reason otherwise. -/
structure AResp where
  status : Nat
  errCode : Option Chars
  content : Chars
  finishReason : Chars
deriving DecidableEq, Repr

/-- The event loop of `non_stream_response` (api_server.py lines
745-780): aggregate content; on an error event return at once with
status 413 and code `attachment_too_large` when the message contains
the friendly-413 marker, else 500 and `processing_error`. -/
def nonStreamAGo (acc : Chars) (fr : Chars) : List AEvent → AResp
  | [] => { status := 200, errCode := none, content := acc, finishReason := fr }
  | AEvent.contentEv s :: rest => nonStreamAGo (acc ++ s) fr rest
  | AEvent.finishEv r :: rest =>
      nonStreamAGo (acc ++ (if r = "content-filter".toList then cfilterWarn else [])) r rest
  | AEvent.errorEv m :: _ =>
      if containsSub m ("附件大小超过了".toList) then
        { status := 413, errCode := some ("attachment_too_large".toList),
          content := [], finishReason := [] }
      else
        { status := 500, errCode := some ("processing_error".toList),
          content := [], finishReason := [] }

/-- `non_stream_response` of api_server.py. -/
def nonStreamA (evs : List AEvent) : AResp :=
  nonStreamAGo [] ("stop".toList) evs

/-! ### Concrete states used by the claim theorems -/

/-- A one-session pool whose only session is in use: the state of the
session-wait scenario (spec §8, scenario 4). -/
def poolBusy : Pools :=
  [("gpt", { sessions := [{ sessionId := "s1", messageId := "m1", modelName := "gpt",
                            status := SessionStatus.in_use, lastUsedTime := 0 }],
             queue := { items := 0, parked := 0 } })]

/-- The same pool with one acquirer parked on the (empty) request queue:
the state right after a second request entered the wait queue. -/
def poolBusyWaiter : Pools :=
  [("gpt", { sessions := [{ sessionId := "s1", messageId := "m1", modelName := "gpt",
                            status := SessionStatus.in_use, lastUsedTime := 0 }],
             queue := { items := 0, parked := 1 } })]

/-- A fresh session reported by the browser for the same model. -/
def freshSession : Session :=
  { sessionId := "s2", messageId := "m2", modelName := "gpt",
    status := SessionStatus.available, lastUsedTime := 0 }

/-- A registry filled to `Config.MAX_CONCURRENT_REQUESTS = 20`. -/
def fullRegistry : ReqMgr :=
  { active := (List.range 20).map (fun i => { rid := toString i, status := PStatus.pending }) }

/-- An empty registry. -/
def emptyRegistry : ReqMgr :=
  { active := [] }

/-- A one-session pool holding `freshSession`, used to witness the
release-before-streaming behaviour. -/
def freshPool : Pools :=
  [("gpt", { sessions := [freshSession], queue := { items := 0, parked := 0 } })]

/-- An empty idle queue. -/
def idleQueue : QueueState :=
  { items := 0, parked := 0 }

/-- A registry with one request already sent to the browser. -/
def watchMgr : ReqMgr :=
  { active := [{ rid := "a", status := PStatus.sentToBrowser }] }

/-! ## Theorems -/

/-- `setFirstAvailable` finds nothing when no session carries the id. -/
theorem setFirstAvailable_eq_none (ss : List Session) (sid : String)
    (h : ∀ s ∈ ss, ¬s.sessionId = sid) : setFirstAvailable ss sid = none := by
  induction ss with
  | nil => rfl
  | cons s rest ih =>
      simp only [setFirstAvailable]
      rw [if_neg (h s (by simp)), ih (fun x hx => h x (by simp [hx]))]
      rfl

/-- `setFirstUnhealthy` finds nothing when no session carries the id. -/
theorem setFirstUnhealthy_eq_none (ss : List Session) (sid : String)
    (h : ∀ s ∈ ss, ¬s.sessionId = sid) : setFirstUnhealthy ss sid = none := by
  induction ss with
  | nil => rfl
  | cons s rest ih =>
      simp only [setFirstUnhealthy]
      rw [if_neg (h s (by simp)), ih (fun x hx => h x (by simp [hx]))]
      rfl

/-- An id absent from the pools is absent from each member pool. -/
theorem not_mem_allSessionIds (pools : Pools) (sid : String)
    (h : sid ∉ allSessionIds pools) :
    ∀ mp ∈ pools, ∀ s ∈ mp.2.sessions, ¬s.sessionId = sid := by
  intro mp hmp s hs hEq
  apply h
  unfold allSessionIds
  rw [List.mem_flatMap]
  exact ⟨mp, hmp, by rw [List.mem_map]; exact ⟨s, hs, hEq⟩⟩

/-- `release_session` is the identity when no pool holds the id. -/
theorem releaseSession_noop (pools : Pools) (sid : String)
    (hall : ∀ mp ∈ pools, ∀ s ∈ mp.2.sessions, ¬s.sessionId = sid) :
    releaseSession pools sid = pools := by
  induction pools with
  | nil => rfl
  | cons mp rest ih =>
      obtain ⟨m, pool⟩ := mp
      simp only [releaseSession]
      rw [setFirstAvailable_eq_none pool.sessions sid
        (fun s hs => hall (m, pool) (by simp) s hs)]
      rw [ih (fun x hx s hs => hall x (by simp [hx]) s hs)]

/-- `mark_unhealthy` is the identity when no pool holds the id. -/
theorem markUnhealthy_noop (pools : Pools) (sid : String)
    (hall : ∀ mp ∈ pools, ∀ s ∈ mp.2.sessions, ¬s.sessionId = sid) :
    markUnhealthy pools sid = pools := by
  induction pools with
  | nil => rfl
  | cons mp rest ih =>
      obtain ⟨m, pool⟩ := mp
      simp only [markUnhealthy]
      rw [setFirstUnhealthy_eq_none pool.sessions sid
        (fun s hs => hall (m, pool) (by simp) s hs)]
      rw [ih (fun x hx s hs => hall x (by simp [hx]) s hs)]

/-- C10: `release_session` and `mark_unhealthy` called with a session id
present in no pool leave the whole manager state unchanged: every pool,
every session status and every waiter queue are exactly as before (only
a warning is logged). -/
theorem c10_unknown_sid_noop (pools : Pools) (sid : String)
    (h : sid ∉ allSessionIds pools) :
    releaseSession pools sid = pools ∧ markUnhealthy pools sid = pools :=
  ⟨releaseSession_noop pools sid (not_mem_allSessionIds pools sid h),
   markUnhealthy_noop pools sid (not_mem_allSessionIds pools sid h)⟩

/-- C10 witness: the no-op at a concrete state and a concrete unknown id. -/
theorem c10_unknown_sid_noop_witness :
    releaseSession poolBusy "nope" = poolBusy ∧ markUnhealthy poolBusy "nope" = poolBusy :=
  c10_unknown_sid_noop poolBusy "nope" (by decide)

/-- C2: the code does **not** wake a parked waiter.  In the failing
state `poolBusyWaiter` (one in-use session, one acquirer parked on the
empty request queue), `release_session` transitions the session to
AVAILABLE but — because the wake-up sentinel is sent only when the
queue is *non-empty*, and a parked getter means it is empty — no
sentinel is put and the waiter stays parked; `add_session` of a fresh
session behaves the same way.  The claim (and the source's own comment,
"If there are waiting requests, notify one") says one waiter is woken. -/
theorem c2_release_add_do_not_wake :
    statusOfSid (releaseSession poolBusyWaiter "s1") "s1" = some SessionStatus.available ∧
    queueOf (releaseSession poolBusyWaiter "s1") "gpt" = some { items := 0, parked := 1 } ∧
    queueOf (addSession poolBusyWaiter freshSession) "gpt" = some { items := 0, parked := 1 } ∧
    queuePut { items := 0, parked := 1 } = { items := 0, parked := 0 } := by
  decide

/-- C1: when the acquire deadline elapses on the busy pool, the session
manager returns no session (it catches the `asyncio.TimeoutError`
itself), and the handler then answers HTTP 500 — not 504 — while
releasing nothing and registering nothing. -/
theorem c1_wait_deadline_gives_500 :
    (acquireSession 60 poolBusy "gpt" WaitOutcome.deadline).1 = none ∧
    chatCompletions true true (acquireSession 60 poolBusy "gpt" WaitOutcome.deadline).1
        { active := [] } 20 "r1"
      = { status := 500, releasedSids := [], registryAfter := { active := [] },
          streamingAccepted := false } := by
  decide

/-- C8: with the registry at `Config.MAX_CONCURRENT_REQUESTS = 20`
active entries, `add_request` does raise the capacity rejection as
`HTTPException(503)` and inserts nothing — but the handler's generic
`except Exception` arm re-raises it as `HTTPException(500)`, so the
client receives HTTP 500, not 503.  The session that had been acquired
is released by the `finally` arm. -/
theorem c8_capacity_rejected_as_500 :
    addRequest fullRegistry 20 "r21" = Except.error 503 ∧
    chatCompletions true true (some freshSession) fullRegistry 20 "r21"
      = { status := 500, releasedSids := [freshSession.sessionId],
          registryAfter := fullRegistry, streamingAccepted := false } := by
  constructor
  · rfl
  · rfl

/-- C9: on the success path the handler returns the streaming response
with the acquired session already released — the `finally` arm runs at
handler return, before the response generator consumes anything — so at
the pool state the streaming starts from, the session is AVAILABLE
again and a concurrent request for the same model immediately acquires
that very session. -/
theorem c9_session_released_before_streaming
    (m : String) (s : Session) (q : QueueState) (mgr : ReqMgr)
    (maxC : Nat) (rid : String) (now2 : Nat)
    (hcap : mgr.active.length < maxC) :
    (chatCompletions true true (some s) mgr maxC rid).streamingAccepted = true ∧
    (chatCompletions true true (some s) mgr maxC rid).releasedSids = [s.sessionId] ∧
    statusOfSid (applyReleases [(m, { sessions := [s], queue := q })]
        (chatCompletions true true (some s) mgr maxC rid).releasedSids) s.sessionId
      = some SessionStatus.available ∧
    (acquireSession now2 (applyReleases [(m, { sessions := [s], queue := q })]
        (chatCompletions true true (some s) mgr maxC rid).releasedSids) m
        WaitOutcome.deadline).1
      = some { s with status := SessionStatus.in_use, lastUsedTime := now2 } := by
  have hadd : addRequest mgr maxC rid
      = Except.ok { active := mgr.active ++ [{ rid := rid, status := PStatus.pending }] } := by
    unfold addRequest
    rw [if_neg (Nat.not_le.mpr hcap)]
  have hchat : chatCompletions true true (some s) mgr maxC rid
      = { status := 200, releasedSids := [s.sessionId],
          registryAfter := { active := mgr.active ++ [{ rid := rid, status := PStatus.pending }] },
          streamingAccepted := true } := by
    unfold chatCompletions
    rw [hadd]
    simp
  refine ⟨by rw [hchat], by rw [hchat], ?_, ?_⟩
  · rw [hchat]
    simp [applyReleases, releaseSession, setFirstAvailable, statusOfSid]
  · rw [hchat]
    simp [applyReleases, releaseSession, setFirstAvailable, acquireSession, findPool,
      acquireFirstAvailable]

/-- C9 witness: the release-before-streaming facts at a concrete
session, pool and registry. -/
theorem c9_session_released_before_streaming_witness :
    (chatCompletions true true (some freshSession) emptyRegistry 20 "r1").streamingAccepted
      = true ∧
    (chatCompletions true true (some freshSession) emptyRegistry 20 "r1").releasedSids
      = [freshSession.sessionId] ∧
    statusOfSid (applyReleases freshPool
        (chatCompletions true true (some freshSession) emptyRegistry 20 "r1").releasedSids)
        freshSession.sessionId
      = some SessionStatus.available ∧
    (acquireSession 7 (applyReleases freshPool
        (chatCompletions true true (some freshSession) emptyRegistry 20 "r1").releasedSids)
        "gpt" WaitOutcome.deadline).1
      = some { freshSession with status := SessionStatus.in_use, lastUsedTime := 7 } :=
  c9_session_released_before_streaming "gpt" freshSession idleQueue
    emptyRegistry 20 "r1" 7 (by decide)

/-- A terminated run of the loop ends with the `data: [DONE]` frame. -/
theorem runLoop_terminated (reads : List QRead) :
    ∀ st : GenState, (∃ r ∈ reads, isTerminator r = true) →
      ∃ pre, runLoop st reads = pre ++ [SseFrame.doneFrame] := by
  induction reads with
  | nil =>
      intro st h
      simp at h
  | cons r rest ih =>
      intro st h
      cases r with
      | tick now =>
          have h2 : ∃ x ∈ rest, isTerminator x = true := by
            obtain ⟨x, hx, ht⟩ := h
            rcases List.mem_cons.mp hx with h3 | h3
            · subst h3; simp [isTerminator] at ht
            · exact ⟨x, h3, ht⟩
          simp only [runLoop]
          split
          · obtain ⟨pre, hp⟩ := ih _ h2
            exact ⟨SseFrame.contentFrame st.buffer :: pre, by rw [hp]; rfl⟩
          · exact ih _ h2
      | item d now =>
          cases d with
          | doneMark =>
              refine ⟨(if st.buffer = [] then [] else [SseFrame.contentFrame st.buffer]) ++
                [SseFrame.finishFrame (orStop st.finishReason)], ?_⟩
              simp [runLoop, genEpilogue]
          | errDict msg => exact ⟨[SseFrame.errorFrame msg], rfl⟩
          | a0 delta =>
              have h2 : ∃ x ∈ rest, isTerminator x = true := by
                obtain ⟨x, hx, ht⟩ := h
                rcases List.mem_cons.mp hx with h3 | h3
                · subst h3; simp [isTerminator] at ht
                · exact ⟨x, h3, ht⟩
              simp only [runLoop]
              split
              · obtain ⟨pre, hp⟩ := ih _ h2
                exact ⟨SseFrame.contentFrame (st.buffer ++ delta) :: pre, by rw [hp]; rfl⟩
              · exact ih _ h2
          | ad reason =>
              have h2 : ∃ x ∈ rest, isTerminator x = true := by
                obtain ⟨x, hx, ht⟩ := h
                rcases List.mem_cons.mp hx with h3 | h3
                · subst h3; simp [isTerminator] at ht
                · exact ⟨x, h3, ht⟩
              exact ih _ h2
          | garbled =>
              have h2 : ∃ x ∈ rest, isTerminator x = true := by
                obtain ⟨x, hx, ht⟩ := h
                rcases List.mem_cons.mp hx with h3 | h3
                · subst h3; simp [isTerminator] at ht
                · exact ⟨x, h3, ht⟩
              exact ih _ h2

/-- When the loop ends at the `"[DONE]"` sentinel, a finish frame with
a non-null reason immediately precedes the `[DONE]` frame. -/
theorem runLoop_done_first (reads : List QRead) :
    ∀ st : GenState, firstTerminatorIsDone reads = true →
      ∃ pre reason,
        runLoop st reads = pre ++ [SseFrame.finishFrame reason, SseFrame.doneFrame] := by
  induction reads with
  | nil =>
      intro st h
      simp [firstTerminatorIsDone] at h
  | cons r rest ih =>
      intro st h
      cases r with
      | tick now =>
          have h2 : firstTerminatorIsDone rest = true := h
          simp only [runLoop]
          split
          · obtain ⟨pre, reason, hp⟩ := ih _ h2
            exact ⟨SseFrame.contentFrame st.buffer :: pre, reason, by rw [hp]; rfl⟩
          · exact ih _ h2
      | item d now =>
          cases d with
          | doneMark =>
              refine ⟨(if st.buffer = [] then [] else [SseFrame.contentFrame st.buffer]),
                orStop st.finishReason, ?_⟩
              simp [runLoop, genEpilogue]
          | errDict msg => simp [firstTerminatorIsDone] at h
          | a0 delta =>
              have h2 : firstTerminatorIsDone rest = true := h
              simp only [runLoop]
              split
              · obtain ⟨pre, reason, hp⟩ := ih _ h2
                exact ⟨SseFrame.contentFrame (st.buffer ++ delta) :: pre, reason,
                  by rw [hp]; rfl⟩
              · exact ih _ h2
          | ad reason =>
              exact ih _ h
          | garbled =>
              exact ih _ h

/-- C3 (amended): for every loop-terminating event sequence the SSE
output ends with `data: [DONE]`; when the terminating event is the
normal `"[DONE]"` sentinel, the frame immediately before `[DONE]` is
the final chunk, whose `choices[0].finish_reason` is non-null.  (When
the terminating event is an upstream error, the frame before `[DONE]`
is the error envelope, which carries no `choices` at all — see the
counterexample.) -/
theorem c3_stream_termination (t0 : Nat) (reads : List QRead)
    (h : ∃ r ∈ reads, isTerminator r = true) :
    (∃ pre, runGenerator t0 reads = pre ++ [SseFrame.doneFrame]) ∧
    (firstTerminatorIsDone reads = true →
      ∃ pre reason,
        runGenerator t0 reads = pre ++ [SseFrame.finishFrame reason, SseFrame.doneFrame] ∧
        finishReasonField (SseFrame.finishFrame reason) = some reason) := by
  constructor
  · exact runLoop_terminated reads _ h
  · intro hdone
    obtain ⟨pre, reason, hp⟩ := runLoop_done_first reads _ hdone
    exact ⟨pre, reason, hp, rfl⟩

/-- C3 witness: a happy-path stream (`"[DONE]"` sentinel) ends with
`data: [DONE]`. -/
theorem c3_stream_termination_witness :
    ∃ pre, runGenerator 0 [QRead.item PDatum.doneMark 0] = pre ++ [SseFrame.doneFrame] :=
  (c3_stream_termination 0 [QRead.item PDatum.doneMark 0] (by decide)).1

/-- C3 counterexample: on an upstream-error event the stream still ends
with `data: [DONE]`, but the frame immediately before it is the
`error` envelope, whose `choices[0].finish_reason` does not exist —
refuting the claim that the frame before `[DONE]` always carries a
non-null `finish_reason`. -/
theorem c3_error_frame_has_no_finish_reason :
    runGenerator 0 [QRead.item (PDatum.errDict ("boom".toList)) 0]
      = [SseFrame.errorFrame ("boom".toList), SseFrame.doneFrame] ∧
    (runGenerator 0 [QRead.item (PDatum.errDict ("boom".toList)) 0]).getLast?
      = some SseFrame.doneFrame ∧
    (secondLastFrame (runGenerator 0 [QRead.item (PDatum.errDict ("boom".toList)) 0])).map
        finishReasonField
      = some none := by
  decide

/-- The loop invariant of chunk coalescing: over terminator-free reads
followed by the `"[DONE]"` sentinel, the flushed text is the current
buffer followed by all incoming deltas. -/
theorem runLoop_text (body : List QRead) :
    ∀ (st : GenState) (t : Nat), (∀ r ∈ body, isTerminator r = false) →
      framesText (runLoop st (body ++ [QRead.item PDatum.doneMark t]))
        = st.buffer ++ readsText body := by
  induction body with
  | nil =>
      intro st t _
      simp only [List.nil_append, runLoop, genEpilogue]
      by_cases hb : st.buffer = []
      · simp [hb, framesText, readsText, flushedText]
      · simp [hb, framesText, readsText, flushedText]
  | cons r body ih =>
      intro st t h
      have hrest : ∀ x ∈ body, isTerminator x = false := fun x hx => h x (by simp [hx])
      cases r with
      | tick now =>
          simp only [List.cons_append, runLoop, List.append_eq]
          split
          · rw [show framesText (SseFrame.contentFrame st.buffer ::
                runLoop { buffer := [], finishReason := st.finishReason, lastFlush := now }
                  (body ++ [QRead.item PDatum.doneMark t]))
                = st.buffer ++ framesText (runLoop
                    { buffer := [], finishReason := st.finishReason, lastFlush := now }
                    (body ++ [QRead.item PDatum.doneMark t])) from by
                  simp [framesText, flushedText]]
            rw [ih _ t hrest]
            simp [readsText, deltaText]
          · rw [ih _ t hrest]
            simp [readsText, deltaText]
      | item d now =>
          cases d with
          | doneMark => simp [isTerminator] at h
          | errDict msg => simp [isTerminator] at h
          | a0 delta =>
              simp only [List.cons_append, runLoop, List.append_eq]
              split
              · rw [show framesText (SseFrame.contentFrame (st.buffer ++ delta) ::
                    runLoop { buffer := [], finishReason := st.finishReason, lastFlush := now }
                      (body ++ [QRead.item PDatum.doneMark t]))
                    = (st.buffer ++ delta) ++ framesText (runLoop
                        { buffer := [], finishReason := st.finishReason, lastFlush := now }
                        (body ++ [QRead.item PDatum.doneMark t])) from by
                      simp [framesText, flushedText]]
                rw [ih _ t hrest]
                simp [readsText, deltaText, List.append_assoc]
              · rw [ih _ t hrest]
                simp [readsText, deltaText, List.append_assoc]
          | ad reason =>
              simp only [List.cons_append, runLoop, List.append_eq]
              rw [ih _ t hrest]
              simp [readsText, deltaText]
          | garbled =>
              simp only [List.cons_append, runLoop, List.append_eq]
              rw [ih _ t hrest]
              simp [readsText, deltaText]

/-- C5 (amended): chunk coalescing for streaming chat.  (i) For every
stream terminated by the normal `"[DONE]"` sentinel, the concatenation
of the flushed frame texts equals the concatenation of the received
`a0` deltas — nothing lost, nothing reordered, with the final flush at
end-of-stream.  (ii)/(iii) An incoming delta is flushed — as a single
frame carrying the whole buffer — exactly when the buffer reaches 40
characters or is non-empty with 500 ms elapsed since the last flush;
(iv) a queue-poll timeout flushes the buffer exactly when it is
non-empty and 500 ms have elapsed.  (When the stream is terminated by
an upstream error instead, still-buffered deltas are discarded — see
the counterexample.) -/
theorem c5_chunk_coalescing :
    (∀ (t0 t : Nat) (body : List QRead), (∀ r ∈ body, isTerminator r = false) →
      framesText (runGenerator t0 (body ++ [QRead.item PDatum.doneMark t])) = readsText body) ∧
    (∀ (st : GenState) (d : Chars) (now : Nat) (rest : List QRead),
      (40 ≤ (st.buffer ++ d).length ∨ ((st.buffer ++ d) ≠ [] ∧ 500 ≤ now - st.lastFlush)) →
      runLoop st (QRead.item (PDatum.a0 d) now :: rest)
        = SseFrame.contentFrame (st.buffer ++ d)
            :: runLoop { buffer := [], finishReason := st.finishReason, lastFlush := now } rest) ∧
    (∀ (st : GenState) (d : Chars) (now : Nat) (rest : List QRead),
      ¬(40 ≤ (st.buffer ++ d).length ∨ ((st.buffer ++ d) ≠ [] ∧ 500 ≤ now - st.lastFlush)) →
      runLoop st (QRead.item (PDatum.a0 d) now :: rest)
        = runLoop { st with buffer := st.buffer ++ d } rest) ∧
    (∀ (st : GenState) (now : Nat) (rest : List QRead),
      st.buffer ≠ [] → 500 ≤ now - st.lastFlush →
      runLoop st (QRead.tick now :: rest)
        = SseFrame.contentFrame st.buffer
            :: runLoop { buffer := [], finishReason := st.finishReason, lastFlush := now } rest) := by
  refine ⟨?_, ?_, ?_, ?_⟩
  · intro t0 t body h
    exact runLoop_text body _ t h
  · intro st d now rest hc
    simp only [runLoop]
    rw [if_pos hc]
  · intro st d now rest hc
    simp only [runLoop]
    rw [if_neg hc]
  · intro st now rest h1 h2
    simp only [runLoop]
    rw [if_pos ⟨h1, h2⟩]

/-- C5 witness: a short delta followed by `"[DONE]"` is flushed at
end-of-stream, delivering exactly the received text. -/
theorem c5_chunk_coalescing_witness :
    framesText (runGenerator 0
        ([QRead.item (PDatum.a0 ("hello".toList)) 0] ++ [QRead.item PDatum.doneMark 0]))
      = readsText [QRead.item (PDatum.a0 ("hello".toList)) 0] :=
  c5_chunk_coalescing.1 0 0 [QRead.item (PDatum.a0 ("hello".toList)) 0] (by decide)

/-- Erasing the entry of one id does not change the lookup of another. -/
theorem lookup_eraseP_ne (l : List PReqM) (rid rid2 : String) (hne : ¬rid2 = rid) :
    (l.eraseP (fun r => r.rid = rid)).find? (fun r => r.rid = rid2)
      = l.find? (fun r => r.rid = rid2) := by
  induction l with
  | nil => rfl
  | cons r0 tl ih =>
      by_cases hp : r0.rid = rid
      · rw [List.eraseP_cons_of_pos (by simp [hp])]
        rw [List.find?_cons_of_neg tl (by simp [hp]; intro h; exact hne h.symm)]
      · rw [List.eraseP_cons_of_neg (by simp [hp])]
        by_cases hq : r0.rid = rid2
        · rw [List.find?_cons_of_pos _ (by simp [hq]), List.find?_cons_of_pos _ (by simp [hq])]
        · rw [List.find?_cons_of_neg _ (by simp [hq]), List.find?_cons_of_neg _ (by simp [hq]),
            ih]

/-- Members of a rid-distinct list sharing a rid are equal. -/
theorem rid_unique (l : List PReqM) (hnd : (l.map PReqM.rid).Nodup)
    (a b : PReqM) (ha : a ∈ l) (hb : b ∈ l) (hab : a.rid = b.rid) : a = b :=
  List.inj_on_of_nodup_map hnd ha hb hab

/-- `memStr` over a cons whose head differs. -/
theorem memStr_cons_ne (x rid : String) (rest : List String) (h : ¬x = rid) :
    memStr x (rid :: rest) = memStr x rest := by
  simp [memStr, List.any_cons]
  intro hq
  exact absurd hq.symm h

/-- `killedBy` ignores a watched id no active request carries. -/
theorem filter_killedBy_cons (l : List PReqM) (rid : String) (rest : List String)
    (h : ∀ r ∈ l, ¬r.rid = rid) :
    l.filter (fun r => !killedBy (rid :: rest) r)
      = l.filter (fun r => !killedBy rest r) := by
  apply List.filter_congr
  intro r hr
  rw [show killedBy (rid :: rest) r = killedBy rest r from by
    unfold killedBy
    rw [memStr_cons_ne r.rid rid rest (h r hr)]]

/-- The erase-then-filter step of a fired watchdog entry: erasing the
(unique, still-pending) request with the given id and filtering by the
remaining watched ids equals filtering by the full watched list. -/
theorem eraseP_filter_killedBy (l : List PReqM) (rid : String) (rest : List String)
    (hnd : (l.map PReqM.rid).Nodup)
    (hpend : ∀ r ∈ l, r.rid = rid → isPendingStatus r.status = true) :
    (l.eraseP (fun r => r.rid = rid)).filter (fun r => !killedBy rest r)
      = l.filter (fun r => !killedBy (rid :: rest) r) := by
  induction l with
  | nil => rfl
  | cons r0 tl ih =>
      have hnd0 : (tl.map PReqM.rid).Nodup := (List.nodup_cons.mp hnd).2
      by_cases hp : r0.rid = rid
      · have hkill : killedBy (rid :: rest) r0 = true := by
          unfold killedBy
          rw [show memStr r0.rid (rid :: rest) = true from by simp [memStr, List.any_cons, hp]]
          rw [hpend r0 (by simp) hp]
          rfl
        have htl : ∀ r ∈ tl, ¬r.rid = rid := by
          intro r hr hq
          have : r0.rid ∈ tl.map PReqM.rid := by
            rw [List.mem_map]
            exact ⟨r, hr, by rw [hq, hp]⟩
          exact (List.nodup_cons.mp hnd).1 this
        rw [List.eraseP_cons_of_pos (by simp [hp])]
        rw [List.filter_cons_of_neg (by simp [hkill])]
        exact (filter_killedBy_cons tl rid rest htl).symm
      · have hk0 : killedBy (rid :: rest) r0 = killedBy rest r0 := by
          unfold killedBy
          rw [memStr_cons_ne r0.rid rid rest hp]
        rw [List.eraseP_cons_of_neg (by simp [hp])]
        by_cases hk : killedBy rest r0 = true
        · rw [List.filter_cons_of_neg (by simp [hk]),
            List.filter_cons_of_neg (by simp [hk0, hk])]
          exact ih hnd0 (fun r hr => hpend r (by simp [hr]))
        · have hkf : killedBy rest r0 = false := by
            cases hc : killedBy rest r0
            · rfl
            · exact absurd hc hk
          rw [List.filter_cons_of_pos (by simp [hkf]),
            List.filter_cons_of_pos (by simp [hk0, hkf])]
          rw [ih hnd0 (fun r hr => hpend r (by simp [hr]))]

/-- The watchdog body times out exactly the watched requests that are
still active in SENT_TO_BROWSER or PROCESSING status: they are evicted
from the registry (all others untouched, order preserved) and each
receives one timeout push; everything else receives nothing. -/
theorem watcherFire_spec (watched : List String) :
    ∀ m : ReqMgr, watched.Nodup → (m.active.map PReqM.rid).Nodup →
      (watcherFire watched m).1.active = m.active.filter (fun r => !killedBy watched r) ∧
      (watcherFire watched m).2
        = (watched.filter (fun rid => stillPending m rid)).map (fun rid => (rid, timeoutMsg)) := by
  induction watched with
  | nil =>
      intro m _ _
      exact ⟨(List.filter_eq_self.mpr (fun r _ => rfl)).symm, rfl⟩
  | cons rid rest ih =>
      intro m hw hm
      have hw1 : rid ∉ rest := (List.nodup_cons.mp hw).1
      have hw2 : rest.Nodup := (List.nodup_cons.mp hw).2
      cases hfind : lookupReq m rid with
      | none =>
          have hfind2 : m.active.find? (fun r => r.rid = rid) = none := hfind
          have hnone : ∀ r ∈ m.active, ¬r.rid = rid := by
            intro r hr
            have := List.find?_eq_none.mp hfind2 r hr
            simpa using this
          have hstep : watcherFire (rid :: rest) m = watcherFire rest m := by
            show (match lookupReq m rid with
              | some req =>
                  if isPendingStatus req.status then
                    let p1 := timeoutRequest m rid
                    let p2 := watcherFire rest p1.1
                    (p2.1, p1.2 ++ p2.2)
                  else watcherFire rest m
              | none => watcherFire rest m) = watcherFire rest m
            rw [hfind]
          rw [hstep]
          obtain ⟨ha, hp⟩ := ih m hw2 hm
          refine ⟨?_, ?_⟩
          · rw [ha, filter_killedBy_cons m.active rid rest hnone]
          · rw [hp]
            rw [List.filter_cons_of_neg (by
              rw [show stillPending m rid = false from by unfold stillPending; rw [hfind]]
              simp)]
      | some req =>
          have hfind2 : m.active.find? (fun r => r.rid = rid) = some req := hfind
          have hreq_mem : req ∈ m.active := List.mem_of_find?_eq_some hfind2
          have hreq_rid : req.rid = rid := by
            have := List.find?_some hfind2
            simpa using this
          cases hps : isPendingStatus req.status with
          | false =>
              have hstep : watcherFire (rid :: rest) m = watcherFire rest m := by
                show (match lookupReq m rid with
                  | some req =>
                      if isPendingStatus req.status then
                        let p1 := timeoutRequest m rid
                        let p2 := watcherFire rest p1.1
                        (p2.1, p1.2 ++ p2.2)
                      else watcherFire rest m
                  | none => watcherFire rest m) = watcherFire rest m
                rw [hfind]
                simp only [hps]
                rfl
              rw [hstep]
              obtain ⟨ha, hp⟩ := ih m hw2 hm
              refine ⟨?_, ?_⟩
              · rw [ha]
                apply (List.filter_congr ?_).symm
                intro r hr
                by_cases hq : r.rid = rid
                · have hrq : r = req :=
                    rid_unique m.active hm r req hr hreq_mem (by rw [hq, hreq_rid])
                  subst hrq
                  rw [show killedBy (rid :: rest) r = false from by
                      unfold killedBy; rw [hps]; simp]
                  rw [show killedBy rest r = false from by
                      unfold killedBy; rw [hps]; simp]
                · rw [show killedBy (rid :: rest) r = killedBy rest r from by
                      unfold killedBy; rw [memStr_cons_ne r.rid rid rest hq]]
              · rw [hp]
                rw [List.filter_cons_of_neg (by
                  rw [show stillPending m rid = false from by
                    unfold stillPending; rw [hfind]; exact hps]
                  simp)]
          | true =>
              have hto : timeoutRequest m rid
                  = ({ active := m.active.eraseP (fun r => r.rid = rid) },
                     [(rid, timeoutMsg)]) := by
                unfold timeoutRequest
                rw [if_pos (by rw [hfind]; rfl)]
              have hstep : watcherFire (rid :: rest) m
                  = ((watcherFire rest
                        { active := m.active.eraseP (fun r => r.rid = rid) }).1,
                     (rid, timeoutMsg) ::
                       (watcherFire rest
                         { active := m.active.eraseP (fun r => r.rid = rid) }).2) := by
                show (match lookupReq m rid with
                  | some req =>
                      if isPendingStatus req.status then
                        let p1 := timeoutRequest m rid
                        let p2 := watcherFire rest p1.1
                        (p2.1, p1.2 ++ p2.2)
                      else watcherFire rest m
                  | none => watcherFire rest m) = _
                rw [hfind]
                simp only [hps, hto]
                rfl
              have hm2 : ((m.active.eraseP (fun r => r.rid = rid)).map PReqM.rid).Nodup :=
                hm.sublist (List.Sublist.map PReqM.rid (List.eraseP_sublist m.active))
              obtain ⟨ha, hp⟩ :=
                ih { active := m.active.eraseP (fun r => r.rid = rid) } hw2 hm2
              rw [hstep]
              refine ⟨?_, ?_⟩
              · rw [ha]
                exact eraseP_filter_killedBy m.active rid rest hm
                  (fun r hr hq => by
                    rw [rid_unique m.active hm r req hr hreq_mem (by rw [hq, hreq_rid])]
                    exact hps)
              · rw [hp]
                rw [List.filter_cons_of_pos (by
                  rw [show stillPending m rid = true from by
                    unfold stillPending; rw [hfind]; exact hps])]
                rw [List.map_cons]
                rw [List.filter_congr (fun rid2 h2 => show stillPending
                    { active := m.active.eraseP (fun r => r.rid = rid) } rid2
                      = stillPending m rid2 from by
                  unfold stillPending lookupReq
                  rw [lookup_eraseP_ne m.active rid rid2 (fun hq => hw1 (hq ▸ h2))])]

/-- C4: on a peer disconnect outside shutdown, no in-flight request is
terminated: the registry is untouched, nothing is pushed onto any
response channel by the manager, and the websocket cleanup pushes its
"Browser disconnected" error only to channels with no registry entry —
never to a watched (sent-to-browser or processing) request.  A
watchdog is scheduled over exactly the sent|processing set; when it
fires after the per-request timeout against the then-current registry,
it times out exactly the watched requests still in sent|processing
status — evicting them and pushing one timeout error each — so a
watched request that completed in the meantime (resumed by a peer
reconnect) is spared: it receives no push. -/
theorem c4_watchdog_spares_resumed (m : ReqMgr) (channels : List String)
    (hp : getPendingIds m ≠ []) (hm : (m.active.map PReqM.rid).Nodup) :
    handleBrowserDisconnect m false
      = { mgr := m, pushes := [], watched := some (getPendingIds m) } ∧
    (∀ rid ∈ getPendingIds m, rid ∉ wsDisconnectErrorTargets channels m) ∧
    (∀ m2 : ReqMgr, (m2.active.map PReqM.rid).Nodup →
      (watcherFire (getPendingIds m) m2).1.active
          = m2.active.filter (fun r => !killedBy (getPendingIds m) r) ∧
      (watcherFire (getPendingIds m) m2).2
          = ((getPendingIds m).filter (fun rid => stillPending m2 rid)).map
              (fun rid => (rid, timeoutMsg)) ∧
      (∀ rid ∈ getPendingIds m, lookupReq m2 rid = none →
        ∀ msg, (rid, msg) ∉ (watcherFire (getPendingIds m) m2).2)) := by
  have hwnd : (getPendingIds m).Nodup := by
    unfold getPendingIds
    have hsub : List.Sublist ((m.active.filter (fun r => isPendingStatus r.status)).map PReqM.rid)
        (m.active.map PReqM.rid) :=
      List.Sublist.map PReqM.rid (List.filter_sublist m.active)
    exact hm.sublist hsub
  refine ⟨?_, ?_, ?_⟩
  · simp only [handleBrowserDisconnect]
    rw [show (getPendingIds m).isEmpty = false from by
      cases hq : getPendingIds m with
      | nil => exact absurd hq hp
      | cons a l => rfl]
    rfl
  · intro rid hrid
    have hsome : (lookupReq m rid).isSome := by
      unfold getPendingIds at hrid
      rw [List.mem_map] at hrid
      obtain ⟨r, hr, hrrid⟩ := hrid
      have hr2 := List.mem_of_mem_filter hr
      apply List.find?_isSome.mpr
      exact ⟨r, hr2, by simp [hrrid]⟩
    intro hmem
    unfold wsDisconnectErrorTargets at hmem
    have := List.of_mem_filter hmem
    rw [Option.isNone_iff_eq_none] at this
    rw [this] at hsome
    simp at hsome
  · intro m2 hm2
    obtain ⟨ha, hpu⟩ := watcherFire_spec (getPendingIds m) m2 hwnd hm2
    refine ⟨ha, hpu, ?_⟩
    intro rid hrid hnone msg hmem
    rw [hpu] at hmem
    rw [List.mem_map] at hmem
    obtain ⟨rid2, hrid2, heq⟩ := hmem
    have hrid2eq : rid2 = rid := by
      have := congrArg Prod.fst heq
      simpa using this
    subst hrid2eq
    have hsp := List.of_mem_filter hrid2
    rw [show stillPending m2 rid2 = false from by
      unfold stillPending; rw [hnone]] at hsp
    simp at hsp

/-- C4 witness: a single sent-to-browser request survives the
disconnect itself (only the watchdog is armed over it). -/
theorem c4_watchdog_spares_resumed_witness :
    handleBrowserDisconnect watchMgr false
      = { mgr := watchMgr, pushes := [], watched := some (getPendingIds watchMgr) } :=
  (c4_watchdog_spares_resumed watchMgr ["a", "b"] (by decide) (by decide)).1

/-- C7: an upstream error whose message contains `413` or,
case-insensitively, `too large`, is classified as attachment-too-large:
the processor yields exactly one error event carrying the friendly
message (for any behaviour of the buffer scanner and any further queued
data); the non-streaming driver then returns HTTP 413 with error code
`attachment_too_large`; the streaming driver emits one frame carrying
the bridge-error text, then a finish frame, then `data: [DONE]`. -/
theorem c7_attachment_too_large (msg : Chars) (h : contains413orTooLarge msg = true)
    (scan : Chars → ScanOut) (rest : List ARaw) :
    processStream scan (ARaw.errDictA msg :: rest) = [AEvent.errorEv friendly413] ∧
    nonStreamA (processStream scan (ARaw.errDictA msg :: rest))
      = { status := 413, errCode := some ("attachment_too_large".toList),
          content := [], finishReason := [] } ∧
    streamGenA (processStream scan (ARaw.errDictA msg :: rest))
      = [AFrame.contentC (bridgeErrHeader ++ friendly413), AFrame.finishC ("stop".toList),
         AFrame.doneF] ∧
    (streamGenA (processStream scan (ARaw.errDictA msg :: rest))).getLast? = some AFrame.doneF := by
  have hev : processStream scan (ARaw.errDictA msg :: rest) = [AEvent.errorEv friendly413] := by
    show processLoop scan [] (ARaw.errDictA msg :: rest) = [AEvent.errorEv friendly413]
    show [classifyErrDict msg] = [AEvent.errorEv friendly413]
    unfold classifyErrDict
    rw [if_pos h]
  refine ⟨hev, ?_, ?_, ?_⟩
  · rw [hev]
    show nonStreamAGo [] ("stop".toList) [AEvent.errorEv friendly413]
      = { status := 413, errCode := some ("attachment_too_large".toList),
          content := [], finishReason := [] }
    unfold nonStreamAGo
    rw [if_pos (by decide)]
  · rw [hev]
    rfl
  · rw [hev]
    rfl

/-- C7 witness: the literal peer error of the spec scenario,
`413 Request Entity Too Large`, with a trivial buffer scanner. -/
theorem c7_attachment_too_large_witness :
    nonStreamA (processStream (fun b => { events := [], buffer := b, stop := false })
        [ARaw.errDictA ("413 Request Entity Too Large".toList)])
      = { status := 413, errCode := some ("attachment_too_large".toList),
          content := [], finishReason := [] } :=
  (c7_attachment_too_large ("413 Request Entity Too Large".toList) (by decide)
    (fun b => { events := [], buffer := b, stop := false }) []).2.1

/-- C5 counterexample: when the stream terminates with an upstream
error while a short delta is still buffered, the buffered text is
discarded — the flushed text differs from the received deltas, refuting
the unconditional no-text-lost claim. -/
theorem c5_error_discards_buffer :
    framesText (runGenerator 0
        [QRead.item (PDatum.a0 ("hi".toList)) 0, QRead.item (PDatum.errDict ("x".toList)) 0])
      = [] ∧
    readsText [QRead.item (PDatum.a0 ("hi".toList)) 0,
        QRead.item (PDatum.errDict ("x".toList)) 0] = "hi".toList ∧
    framesText (runGenerator 0
        [QRead.item (PDatum.a0 ("hi".toList)) 0, QRead.item (PDatum.errDict ("x".toList)) 0])
      ≠ readsText [QRead.item (PDatum.a0 ("hi".toList)) 0,
          QRead.item (PDatum.errDict ("x".toList)) 0] := by
  decide

/-- A list's prefix of the length of its `takeWhile` is that `takeWhile`. -/
theorem take_takeWhile_length (p : Char → Bool) (l : Chars) :
    l.take ((l.takeWhile p).length) = l.takeWhile p := by
  induction l with
  | nil => rfl
  | cons c tl ih =>
      by_cases hc : p c
      · simp [List.takeWhile_cons, hc, ih]
      · simp [List.takeWhile_cons, hc]

/-- Decomposition of a data-URI match: the matched prefix is the
`data:image/` literal, the extension run, the `;base64,` literal and
the base64 run, and the runs satisfy their character classes. -/
theorem matchDataUri_decomp (t : Chars) (n : Nat) (w b : Chars)
    (h : matchDataUri t = some (n, w, b)) :
    t.take n = "data:image/".toList ++ w ++ (";base64,".toList ++ b) ∧
    (∀ c ∈ w, isWordChar c = true) ∧ (∀ c ∈ b, isB64Char c = true) ∧
    0 < n ∧ n ≤ t.length := by
  unfold matchDataUri at h
  by_cases h1 : t.take 11 = "data:image/".toList
  swap
  · rw [if_neg h1] at h
    exact absurd h (by simp)
  rw [if_pos h1] at h
  by_cases h2 : 0 < ((t.drop 11).takeWhile isWordChar).length
  swap
  · rw [if_neg h2] at h
    exact absurd h (by simp)
  rw [if_pos h2] at h
  by_cases h3 : ((t.drop 11).drop ((t.drop 11).takeWhile isWordChar).length).take 8
      = ";base64,".toList
  swap
  · rw [if_neg h3] at h
    exact absurd h (by simp)
  rw [if_pos h3] at h
  by_cases h4 : 0 < ((((t.drop 11).drop ((t.drop 11).takeWhile isWordChar).length).drop
      8).takeWhile isB64Char).length
  swap
  · rw [if_neg h4] at h
    exact absurd h (by simp)
  rw [if_pos h4] at h
  have h5 := Option.some.inj h
  obtain ⟨hn, hw, hb⟩ : 11 + ((t.drop 11).takeWhile isWordChar).length + 8 +
        ((((t.drop 11).drop ((t.drop 11).takeWhile isWordChar).length).drop
          8).takeWhile isB64Char).length = n ∧
      (t.drop 11).takeWhile isWordChar = w ∧
      (((t.drop 11).drop ((t.drop 11).takeWhile isWordChar).length).drop
        8).takeWhile isB64Char = b := by
    simpa [Prod.ext_iff] using h5
  subst hn
  subst hw
  subst hb
  have hdecomp : t.take (11 + ((t.drop 11).takeWhile isWordChar).length + 8 +
        ((((t.drop 11).drop ((t.drop 11).takeWhile isWordChar).length).drop
          8).takeWhile isB64Char).length)
      = "data:image/".toList ++ (t.drop 11).takeWhile isWordChar ++
        (";base64,".toList ++ (((t.drop 11).drop
          ((t.drop 11).takeWhile isWordChar).length).drop 8).takeWhile isB64Char) := by
    rw [show 11 + ((t.drop 11).takeWhile isWordChar).length + 8 +
          ((((t.drop 11).drop ((t.drop 11).takeWhile isWordChar).length).drop
            8).takeWhile isB64Char).length
        = 11 + (((t.drop 11).takeWhile isWordChar).length + (8 +
          ((((t.drop 11).drop ((t.drop 11).takeWhile isWordChar).length).drop
            8).takeWhile isB64Char).length)) from by omega]
    rw [List.take_add, h1, List.take_add, take_takeWhile_length, List.take_add, h3,
      take_takeWhile_length]
    simp [List.append_assoc]
  refine ⟨hdecomp, ?_, ?_, ?_, ?_⟩
  · intro c hc
    exact List.mem_takeWhile_imp hc
  · intro c hc
    exact List.mem_takeWhile_imp hc
  · omega
  · have hlen := congrArg List.length hdecomp
    rw [List.length_take] at hlen
    simp only [List.length_append, List.length_cons, String.toList] at hlen
    omega

/-- No character of a data-URI match is a backtick. -/
theorem matchDataUri_no_btk (t : Chars) (n : Nat) (w b : Chars)
    (h : matchDataUri t = some (n, w, b)) : ∀ c ∈ t.take n, ¬c = btk := by
  obtain ⟨hd, hwc, hbc, _, _⟩ := matchDataUri_decomp t n w b h
  intro c hc
  rw [hd] at hc
  have hlit1 : ∀ x ∈ "data:image/".toList, ¬x = btk := by decide
  have hlit2 : ∀ x ∈ ";base64,".toList, ¬x = btk := by decide
  rcases List.mem_append.mp hc with hc1 | hc2
  · rcases List.mem_append.mp hc1 with hl | hwm
    · exact hlit1 c hl
    · intro hceq
      have := hwc c hwm
      rw [hceq] at this
      exact absurd this (by decide)
  · rcases List.mem_append.mp hc2 with hl | hbm
    · exact hlit2 c hl
    · intro hceq
      have := hbc c hbm
      rw [hceq] at this
      exact absurd this (by decide)

/-- A data-URI match starting at or before a backtick position ends at
or before it. -/
theorem matchDataUri_btk_bound (cs : Chars) (i n : Nat) (w b : Chars) (q : Nat)
    (h : matchDataUri (cs.drop i) = some (n, w, b)) (hq : cs.get? q = some btk)
    (hiq : i ≤ q) : i + n ≤ q := by
  by_contra hlt
  push_neg at hlt
  have h1 : ((cs.drop i).take n).get? (q - i) = cs.get? q := by
    rw [List.get?_take (by omega), List.get?_drop]
    congr 1
    omega
  have h2 : btk ∈ (cs.drop i).take n := List.get?_mem (by rw [h1, hq])
  exact matchDataUri_no_btk (cs.drop i) n w b h btk h2 rfl

/-- Shape of a triple-backtick head. -/
theorem startsWithTriple_spec (v : Chars) (h : startsWithTriple v = true) :
    v.get? 0 = some btk ∧ v.get? 2 = some btk ∧ 3 ≤ v.length := by
  rcases v with _ | ⟨a, _ | ⟨b, _ | ⟨c, rest⟩⟩⟩
  · simp [startsWithTriple] at h
  · simp [startsWithTriple] at h
  · simp [startsWithTriple] at h
  · simp only [startsWithTriple, Bool.and_eq_true, decide_eq_true_eq] at h
    obtain ⟨⟨ha, hb⟩, hc⟩ := h
    refine ⟨?_, ?_, ?_⟩
    · rw [show (a :: b :: c :: rest).get? 0 = some a from rfl, ha]
    · rw [show (a :: b :: c :: rest).get? 2 = some c from rfl, hc]
    · simp

/-- `findTripleFrom` finds a genuine triple-backtick occurrence. -/
theorem findTripleFrom_spec (u : Chars) :
    ∀ j, findTripleFrom u = some j →
      startsWithTriple (u.drop j) = true ∧ j + 3 ≤ u.length := by
  induction u with
  | nil =>
      intro j h
      simp [findTripleFrom] at h
  | cons c tl ih =>
      intro j h
      unfold findTripleFrom at h
      by_cases hs : startsWithTriple (c :: tl) = true
      · rw [if_pos hs] at h
        have hj : j = 0 := by
          have := Option.some.inj h
          omega
        subst hj
        exact ⟨hs, (startsWithTriple_spec _ hs).2.2⟩
      · rw [if_neg hs] at h
        cases hf : findTripleFrom tl with
        | none =>
            rw [hf] at h
            simp at h
        | some j0 =>
            rw [hf] at h
            simp at h
            have hj : j = j0 + 1 := h.symm
            subst hj
            obtain ⟨h1, h2⟩ := ih j0 hf
            refine ⟨h1, ?_⟩
            simp only [List.length_cons]
            omega

/-- Shape of a fenced-code match: non-empty, within bounds, and
backtick-delimited. -/
theorem matchFence_spec (t : Chars) (n : Nat) (h : matchFence t = some n) :
    1 ≤ n ∧ n ≤ t.length ∧ t.get? 0 = some btk ∧ t.get? (n - 1) = some btk := by
  unfold matchFence at h
  by_cases hs : startsWithTriple t = true
  swap
  · rw [if_neg hs] at h
    exact absurd h (by simp)
  rw [if_pos hs] at h
  cases hf : findTripleFrom (t.drop 3) with
  | none =>
      rw [hf] at h
      exact absurd h (by simp)
  | some j =>
      rw [hf] at h
      have hn : n = 3 + j + 3 := (Option.some.inj h).symm
      subst hn
      obtain ⟨hj1, hj2⟩ := findTripleFrom_spec (t.drop 3) j hf
      obtain ⟨hh0, hh2, _⟩ := startsWithTriple_spec _ hj1
      obtain ⟨ht0, _, htl⟩ := startsWithTriple_spec t hs
      refine ⟨by omega, ?_, ht0, ?_⟩
      · rw [List.length_drop] at hj2
        omega
      · have hdd : (t.drop 3).drop j = t.drop (3 + j) := List.drop_drop j 3 t
        rw [hdd, List.get?_drop] at hh2
        rw [show 3 + j + 3 - 1 = 3 + j + 2 from by omega]
        exact hh2

/-- Shape of an inline-code match: non-empty, within bounds, and
backtick-delimited. -/
theorem matchInline_spec (t : Chars) (n : Nat) (h : matchInline t = some n) :
    1 ≤ n ∧ n ≤ t.length ∧ t.get? 0 = some btk ∧ t.get? (n - 1) = some btk := by
  cases t with
  | nil =>
      have h2 : (none : Option Nat) = some n := h
      exact absurd h2 (by simp)
  | cons c rest =>
      have h2 : (if c = btk then
          if 0 < (rest.takeWhile notBtkNl).length then
            match (rest.drop (rest.takeWhile notBtkNl).length).head? with
            | some d => if d = btk then some ((rest.takeWhile notBtkNl).length + 2) else none
            | none => none
          else none
        else none) = some n := h
      by_cases hc : c = btk
      swap
      · rw [if_neg hc] at h2
        exact absurd h2 (by simp)
      rw [if_pos hc] at h2
      by_cases hl : 0 < (rest.takeWhile notBtkNl).length
      swap
      · rw [if_neg hl] at h2
        exact absurd h2 (by simp)
      rw [if_pos hl] at h2
      cases hh : (rest.drop (rest.takeWhile notBtkNl).length).head? with
      | none =>
          rw [hh] at h2
          exact absurd h2 (by simp)
      | some d =>
          rw [hh] at h2
          by_cases hd : d = btk
          swap
          · have h3 : (if d = btk then some ((rest.takeWhile notBtkNl).length + 2) else none)
              = some n := h2
            rw [if_neg hd] at h3
            exact absurd h3 (by simp)
          have h3 : (if d = btk then some ((rest.takeWhile notBtkNl).length + 2) else none)
              = some n := h2
          rw [if_pos hd] at h3
          have hn : n = (rest.takeWhile notBtkNl).length + 2 := (Option.some.inj h3).symm
          subst hn
          have hdrop : (rest.drop (rest.takeWhile notBtkNl).length).length ≠ 0 := by
            intro hz
            rw [List.length_eq_zero] at hz
            rw [hz] at hh
            simp at hh
          rw [List.length_drop] at hdrop
          refine ⟨by omega, ?_, ?_, ?_⟩
          · simp only [List.length_cons]
            omega
          · rw [show (c :: rest).get? 0 = some c from rfl, hc]
          · rw [show (rest.takeWhile notBtkNl).length + 2 - 1
              = (rest.takeWhile notBtkNl).length + 1 from by omega]
            rw [show (c :: rest).get? ((rest.takeWhile notBtkNl).length + 1)
              = rest.get? (rest.takeWhile notBtkNl).length from rfl]
            rw [show rest.get? (rest.takeWhile notBtkNl).length
              = (rest.drop (rest.takeWhile notBtkNl).length).get? 0 from by
                rw [List.get?_drop, Nat.add_zero]]
            rw [List.get?_zero, hh, hd]

/-- Shape of any code-span match. -/
theorem matchCodeSpan_spec (t : Chars) (n : Nat) (h : matchCodeSpan t = some n) :
    1 ≤ n ∧ n ≤ t.length ∧ t.get? 0 = some btk ∧ t.get? (n - 1) = some btk := by
  unfold matchCodeSpan at h
  cases hf : matchFence t with
  | some n0 =>
      rw [hf] at h
      exact (Option.some.inj h) ▸ matchFence_spec t n0 hf
  | none =>
      rw [hf] at h
      exact matchInline_spec t n h

/-- Every extent recorded by the span scanner is a genuine match at its
recorded position. -/
theorem scanSpansAux_spec (cs : Chars) :
    ∀ (fuel i : Nat), ∀ se ∈ scanSpansAux fuel (cs.drop i) i,
      i ≤ se.1 ∧ matchCodeSpan (cs.drop se.1) = some (se.2 - se.1) := by
  intro fuel
  induction fuel with
  | zero =>
      intro i se hse
      have h2 : se ∈ ([] : List (Nat × Nat)) := hse
      simp at h2
  | succ fuel ih =>
      intro i se hse
      cases hd : cs.drop i with
      | nil =>
          rw [hd] at hse
          have h2 : se ∈ ([] : List (Nat × Nat)) := hse
          simp at h2
      | cons c tl =>
          rw [hd] at hse
          have he : scanSpansAux (fuel + 1) (c :: tl) i
              = match matchCodeSpan (c :: tl) with
                | some n2 => (i, i + n2) :: scanSpansAux fuel ((c :: tl).drop n2) (i + n2)
                | none => scanSpansAux fuel tl (i + 1) := rfl
          cases hm : matchCodeSpan (c :: tl) with
          | some nn =>
              rw [he, hm] at hse
              rcases List.mem_cons.mp hse with h3 | h3
              · subst h3
                refine ⟨Nat.le_refl i, ?_⟩
                rw [hd, hm]
                congr 1
                omega
              · have hdd : (c :: tl).drop nn = cs.drop (i + nn) := by
                  rw [← hd]
                  exact List.drop_drop nn i cs
                rw [hdd] at h3
                have h4 := ih (i + nn) se h3
                exact ⟨by omega, h4.2⟩
          | none =>
              rw [he, hm] at hse
              have htl : tl = cs.drop (i + 1) := by
                have h5 : (cs.drop i).drop 1 = cs.drop (i + 1) := List.drop_drop 1 i cs
                rw [hd] at h5
                exact h5
              rw [htl] at hse
              have h4 := ih (i + 1) se hse
              exact ⟨by omega, h4.2⟩

/-- Every code-span extent is within bounds and backtick-delimited. -/
theorem codeSpans_spec (cs : Chars) (se : Nat × Nat) (hse : se ∈ codeSpans cs) :
    se.1 < se.2 ∧ se.2 ≤ cs.length ∧
    cs.get? se.1 = some btk ∧ cs.get? (se.2 - 1) = some btk := by
  have h0 : se ∈ scanSpansAux cs.length (cs.drop 0) 0 := by
    rw [List.drop_zero]
    exact hse
  obtain ⟨_, hm⟩ := scanSpansAux_spec cs cs.length 0 se h0
  obtain ⟨h1, h2, h3, h4⟩ := matchCodeSpan_spec _ _ hm
  have hne : cs.drop se.1 ≠ [] := by
    intro hz
    rw [hz] at h3
    simp at h3
  have hpos : 0 < (cs.drop se.1).length := List.length_pos.mpr hne
  rw [List.length_drop] at hpos h2
  have hg0 : cs.get? se.1 = some btk := by
    rw [List.get?_drop] at h3
    rw [← Nat.add_zero se.1]
    exact h3
  have hg1 : cs.get? (se.2 - 1) = some btk := by
    rw [List.get?_drop] at h4
    rw [show se.1 + (se.2 - se.1 - 1) = se.2 - 1 from by omega] at h4
    exact h4
  exact ⟨by omega, by omega, hg0, hg1⟩

/-- A position inside a recorded span extent is recognised by
`insideAnySpan`. -/
theorem insideAnySpan_of_mem (spans : List (Nat × Nat)) (s e p : Nat)
    (hmem : (s, e) ∈ spans) (h1 : s ≤ p) (h2 : p < e) :
    insideAnySpan spans p = true := by
  unfold insideAnySpan
  rw [List.any_eq_true]
  refine ⟨(s, e), hmem, ?_⟩
  simp [h1, h2]

/-- An infix of a list is an infix of any left extension. -/
theorem infix_append_left (x y l : Chars) (h : x <:+: l) : x <:+: y ++ l := by
  obtain ⟨u, v, huv⟩ := h
  exact ⟨y ++ u, v, by rw [← huv]; simp [List.append_assoc]⟩

/-- From a position inside a span, redaction reproduces the rest of the
span verbatim. -/
theorem redactAux_inside (cs : Chars) (spans : List (Nat × Nat)) (s e : Nat)
    (hmem : (s, e) ∈ spans) (hse : s < e) (hlen : e ≤ cs.length)
    (hbt : cs.get? (e - 1) = some btk) :
    ∀ fuel : Nat, ∀ i : Nat, s ≤ i → i < e → cs.length - i ≤ fuel →
      ∃ tail, redactAux spans fuel (cs.drop i) i = (cs.drop i).take (e - i) ++ tail := by
  intro fuel
  induction fuel with
  | zero =>
      intro i h1 h2 h3
      exact absurd h3 (by omega)
  | succ fuel ih =>
      intro i h1 h2 h3
      cases hd : cs.drop i with
      | nil =>
          have hz : cs.length - i = 0 := by
            rw [← List.length_drop, hd]
            rfl
          exact absurd hz (by omega)
      | cons c tl =>
          cases hm : matchDataUri (c :: tl) with
          | some trip =>
              obtain ⟨n, w, b⟩ := trip
              have hin : insideAnySpan spans i = true :=
                insideAnySpan_of_mem spans s e i hmem h1 h2
              have he : redactAux spans (fuel + 1) (c :: tl) i
                  = match matchDataUri (c :: tl) with
                    | some (n2, _, _) =>
                        if insideAnySpan spans i then
                          (c :: tl).take n2 ++ redactAux spans fuel ((c :: tl).drop n2) (i + n2)
                        else redactAux spans fuel ((c :: tl).drop n2) (i + n2)
                    | none => c :: redactAux spans fuel tl (i + 1) := rfl
              have he2 : redactAux spans (fuel + 1) (c :: tl) i
                  = if insideAnySpan spans i = true then
                      (c :: tl).take n ++ redactAux spans fuel ((c :: tl).drop n) (i + n)
                    else redactAux spans fuel ((c :: tl).drop n) (i + n) := by
                rw [he, hm]
              rw [if_pos hin] at he2
              have hmcs : matchDataUri (cs.drop i) = some (n, w, b) := by
                rw [hd]
                exact hm
              have hbound : i + n ≤ e - 1 :=
                matchDataUri_btk_bound cs i n w b (e - 1) hmcs hbt (by omega)
              have hn1 : 0 < n := (matchDataUri_decomp _ _ _ _ hm).2.2.2.1
              obtain ⟨tail, htail⟩ := ih (i + n) (by omega) (by omega) (by omega)
              refine ⟨tail, ?_⟩
              have hdd : (c :: tl).drop n = cs.drop (i + n) := by
                rw [← hd]
                exact List.drop_drop n i cs
              rw [he2, hdd, htail, ← List.append_assoc]
              congr 1
              rw [← hdd, ← List.take_add]
              congr 1
              omega
          | none =>
              have he : redactAux spans (fuel + 1) (c :: tl) i
                  = match matchDataUri (c :: tl) with
                    | some (n2, _, _) =>
                        if insideAnySpan spans i then
                          (c :: tl).take n2 ++ redactAux spans fuel ((c :: tl).drop n2) (i + n2)
                        else redactAux spans fuel ((c :: tl).drop n2) (i + n2)
                    | none => c :: redactAux spans fuel tl (i + 1) := rfl
              have he2 : redactAux spans (fuel + 1) (c :: tl) i
                  = c :: redactAux spans fuel tl (i + 1) := by
                rw [he, hm]
              have htl : tl = cs.drop (i + 1) := by
                have h5 : (cs.drop i).drop 1 = cs.drop (i + 1) := List.drop_drop 1 i cs
                rw [hd] at h5
                exact h5
              by_cases hend : i + 1 < e
              · obtain ⟨tail, htail⟩ := ih (i + 1) (by omega) hend (by omega)
                refine ⟨tail, ?_⟩
                rw [he2, htl, htail]
                rw [show e - i = (e - i - 1) + 1 from by omega, List.take_succ_cons,
                  List.cons_append]
                rw [show e - i - 1 = e - (i + 1) from by omega]
              · refine ⟨redactAux spans fuel tl (i + 1), ?_⟩
                rw [he2]
                rw [show e - i = 1 from by omega]
                rfl

/-- From any position at or before a span start, the span's bytes
survive redaction as a contiguous infix. -/
theorem redactAux_infix (cs : Chars) (spans : List (Nat × Nat)) (s e : Nat)
    (hmem : (s, e) ∈ spans) (hse : s < e) (hlen : e ≤ cs.length)
    (hbs : cs.get? s = some btk) (hbt : cs.get? (e - 1) = some btk) :
    ∀ fuel : Nat, ∀ i : Nat, i ≤ s → cs.length - i ≤ fuel →
      ((cs.drop s).take (e - s)) <:+: redactAux spans fuel (cs.drop i) i := by
  intro fuel
  induction fuel with
  | zero =>
      intro i h1 h3
      exact absurd h3 (by omega)
  | succ fuel ih =>
      intro i h1 h3
      by_cases his : i = s
      · subst his
        obtain ⟨tail, htail⟩ :=
          redactAux_inside cs spans i e hmem hse hlen hbt (fuel + 1) i (Nat.le_refl i)
            hse h3
        rw [htail]
        exact ⟨[], tail, by simp⟩
      · have hlt : i < s := by omega
        cases hd : cs.drop i with
        | nil =>
            have hz : cs.length - i = 0 := by
              rw [← List.length_drop, hd]
              rfl
            exact absurd hz (by omega)
        | cons c tl =>
            have he : redactAux spans (fuel + 1) (c :: tl) i
                = match matchDataUri (c :: tl) with
                  | some (n2, _, _) =>
                      if insideAnySpan spans i then
                        (c :: tl).take n2 ++ redactAux spans fuel ((c :: tl).drop n2) (i + n2)
                      else redactAux spans fuel ((c :: tl).drop n2) (i + n2)
                  | none => c :: redactAux spans fuel tl (i + 1) := rfl
            cases hm : matchDataUri (c :: tl) with
            | some trip =>
                obtain ⟨n, w, b⟩ := trip
                have hmcs : matchDataUri (cs.drop i) = some (n, w, b) := by
                  rw [hd]
                  exact hm
                have hbound : i + n ≤ s :=
                  matchDataUri_btk_bound cs i n w b s hmcs hbs (by omega)
                have hn1 : 0 < n := (matchDataUri_decomp _ _ _ _ hm).2.2.2.1
                have hdd : (c :: tl).drop n = cs.drop (i + n) := by
                  rw [← hd]
                  exact List.drop_drop n i cs
                have hrec := ih (i + n) (by omega) (by omega)
                have he2 : redactAux spans (fuel + 1) (c :: tl) i
                    = if insideAnySpan spans i = true then
                        (c :: tl).take n ++ redactAux spans fuel ((c :: tl).drop n) (i + n)
                      else redactAux spans fuel ((c :: tl).drop n) (i + n) := by
                  rw [he, hm]
                rw [he2]
                by_cases hin : insideAnySpan spans i = true
                · rw [if_pos hin, hdd]
                  exact infix_append_left _ _ _ hrec
                · rw [if_neg hin, hdd]
                  exact hrec
            | none =>
                have htl : tl = cs.drop (i + 1) := by
                  have h5 : (cs.drop i).drop 1 = cs.drop (i + 1) := List.drop_drop 1 i cs
                  rw [hd] at h5
                  exact h5
                have hrec := ih (i + 1) (by omega) (by omega)
                have he2 : redactAux spans (fuel + 1) (c :: tl) i
                    = c :: redactAux spans fuel tl (i + 1) := by
                  rw [he, hm]
                rw [he2, htl]
                exact infix_append_left _ [c] _ hrec

/-- A non-empty infix whose head is not dropped survives `dropWhile`. -/
theorem infix_dropWhile (p : Char → Bool) (x l : Chars) (c0 : Char)
    (hh : x.head? = some c0) (hp : ¬p c0) (h : x <:+: l) : x <:+: l.dropWhile p := by
  obtain ⟨u, v, huv⟩ := h
  have hx : x = c0 :: x.tail := by
    cases x with
    | nil => simp at hh
    | cons a t =>
        simp at hh
        rw [hh]
        rfl
  rw [← huv, List.append_assoc, List.dropWhile_append]
  by_cases hu : (u.dropWhile p).isEmpty
  · rw [if_pos hu]
    rw [hx, List.cons_append, List.dropWhile_cons, if_neg (by simp [hp])]
    exact ⟨[], v, by rw [hx]; simp⟩
  · rw [if_neg hu]
    exact ⟨u.dropWhile p, v, by simp [List.append_assoc]⟩

/-- A non-empty infix whose first and last characters are not Python
whitespace survives `str.strip()`. -/
theorem infix_pyStrip (x l : Chars) (c0 c1 : Char)
    (hh : x.head? = some c0) (hp0 : isPySpace c0 = false)
    (hl : x.getLast? = some c1) (hp1 : isPySpace c1 = false)
    (h : x <:+: l) : x <:+: pyStrip l := by
  unfold pyStrip
  have s1 : x <:+: l.dropWhile isPySpace :=
    infix_dropWhile isPySpace x l c0 hh (by rw [hp0]; simp) h
  have s2 : x.reverse <:+: (l.dropWhile isPySpace).reverse := List.reverse_infix.mpr s1
  have s3 : x.reverse.head? = some c1 := by
    rw [List.head?_reverse]
    exact hl
  have s4 : x.reverse <:+: ((l.dropWhile isPySpace).reverse).dropWhile isPySpace :=
    infix_dropWhile isPySpace x.reverse _ c1 s3 (by rw [hp1]; simp) s2
  have s5 := List.reverse_infix.mpr s4
  rw [List.reverse_reverse] at s5
  exact s5

/-- C6: code-block-safe extraction.  (i) A data URI found in
string-typed content is extracted as an attachment exactly when its
start position lies outside every code-span extent.  (ii) The bytes of
every code-span extent survive the redaction-plus-strip of the content
verbatim, as a contiguous substring of the cleaned text — nothing
inside a fenced or inline code span is ever removed.  (iii) When more
than ten attachments result and more than five of them have base64
bodies under 5000 characters, the extraction is rejected and the
attachment list is cleared. -/
theorem c6_code_block_safe_extraction :
    (∀ (cs : Chars) (m : UriMatch), m ∈ uriMatches cs →
      (m ∈ extractedUris cs ↔ insideAnySpan (codeSpans cs) m.start = false)) ∧
    (∀ (cs : Chars) (se : Nat × Nat), se ∈ codeSpans cs →
      ((cs.drop se.1).take (se.2 - se.1)) <:+: (processStringContent cs).1) ∧
    (∀ fs : List Attachment, 10 < fs.length →
      5 < (fs.filter (fun f => f.data.length < 5000)).length → capAttachments fs = []) := by
  refine ⟨?_, ?_, ?_⟩
  · intro cs m hm
    unfold extractedUris
    rw [List.mem_filter]
    constructor
    · intro h2
      have := h2.2
      simpa using this
    · intro h2
      exact ⟨hm, by simpa using h2⟩
  · intro cs se hse
    obtain ⟨h1, h2, h3, h4⟩ := codeSpans_spec cs se hse
    have hslen : ((cs.drop se.1).take (se.2 - se.1)).length = se.2 - se.1 := by
      rw [List.length_take, List.length_drop]
      omega
    have hget0 : ((cs.drop se.1).take (se.2 - se.1)).get? 0 = some btk := by
      rw [List.get?_take (by omega), List.get?_drop, Nat.add_zero]
      exact h3
    have hgetl : ((cs.drop se.1).take (se.2 - se.1)).get? (se.2 - se.1 - 1) = some btk := by
      rw [List.get?_take (by omega), List.get?_drop]
      rw [show se.1 + (se.2 - se.1 - 1) = se.2 - 1 from by omega]
      exact h4
    have hhead : ((cs.drop se.1).take (se.2 - se.1)).head? = some btk := by
      rw [← List.get?_zero]
      exact hget0
    have hlast : ((cs.drop se.1).take (se.2 - se.1)).getLast? = some btk := by
      rw [List.getLast?_eq_get?, hslen]
      exact hgetl
    have hbase : ((cs.drop se.1).take (se.2 - se.1)) <:+: cs := by
      refine ⟨cs.take se.1, (cs.drop se.1).drop (se.2 - se.1), ?_⟩
      rw [List.append_assoc, List.take_append_drop, List.take_append_drop]
    unfold processStringContent
    by_cases hempty : (extractedUris cs).isEmpty
    · rw [if_pos hempty]
      exact hbase
    · rw [if_neg hempty]
      have hinfix : ((cs.drop se.1).take (se.2 - se.1))
          <:+: redactAux (codeSpans cs) cs.length (cs.drop 0) 0 := by
        obtain ⟨s0, e0⟩ := se
        exact redactAux_infix cs (codeSpans cs) s0 e0 hse h1 h2 h3 h4 cs.length 0
          (by omega) (by omega)
      rw [List.drop_zero] at hinfix
      exact infix_pyStrip _ _ btk btk hhead (by decide) hlast (by decide) hinfix
  · intro fs hcount hsmall
    unfold capAttachments
    rw [if_pos hcount, if_pos hsmall]

/-- C6 witness: in `` `x` data:image/png;base64,AAAA `` the inline code
span `` `x` `` survives extraction verbatim. -/
theorem c6_code_block_safe_extraction_witness :
    ((("`x` data:image/png;base64,AAAA".toList).drop 0).take 3)
      <:+: (processStringContent ("`x` data:image/png;base64,AAAA".toList)).1 :=
  c6_code_block_safe_extraction.2.1 ("`x` data:image/png;base64,AAAA".toList) (0, 3)
    (by decide)

end Proxy
